import Mathlib

/-!
Verification of the pampax semantic code-memory core (JavaScript sources)
against its natural-language specification.

The development shallowly embeds the relevant parts of the source:

* src/ranking/apiReranker.js (the concatenated service module): the
  cosine similarity helper, the indexer orchestrator (merkle skip and
  codemap retention logic), the embedding blob serialization, the
  search pipeline (intention phase, provider/dimension filter, scope
  filter, BM25 fusion hook, rerank phase, compose), getOverview and the
  intention-cache helpers;
* src/chunking/semantic-chunker.js and the token counter
  (analyzeCodeSize / preFilterByChars / analyzeNodeForChunking);
* the subdivision / small-chunk merge logic of yieldChunk and the
  symbol suffix logic of processChunk;
* the RateLimiter class (execute retry schedule and 429 classification);
* the streaming-parse threshold of indexProject.

JavaScript numbers are modeled as rationals where the pipeline compares
and sorts them, and as an opaque Float where only the guard structure
matters (cosineSimilarity).  External collaborators whose code is not
part of the repository (the BM25 index, reciprocal rank fusion, the
glob matcher, the embedding model and the reranker model scores) enter
as explicit function parameters, so every theorem quantifies over them.
-/

/-! ## Small string and association-list utilities -/

/-- Characters of a JavaScript string slice source.slice(i, j)
(nonnegative indices, as used by the chunker). -/
def strSlice (s : String) (i j : Nat) : String :=
  ⟨(s.data.drop i).take (j - i)⟩

/-- Boolean infix test on lists, used to model the JavaScript
String.prototype.includes. -/
def listInfix [DecidableEq α] (pat : List α) : List α → Bool
  | [] => decide (pat = [])
  | a :: rest => decide (pat = (a :: rest).take pat.length) || listInfix pat rest

/-- Models the JavaScript message.includes(pat) test. -/
def strContains (s pat : String) : Bool :=
  listInfix pat.data s.data

/-- Association-list lookup, modeling JavaScript object / Map reads. -/
def alookup {α : Type} (k : String) : List (String × α) → Option α
  | [] => none
  | (k1, v) :: rest => if k = k1 then some v else alookup k rest

/-- Association-list overwrite, modeling JavaScript object assignment. -/
def aset {α : Type} (k : String) (v : α) (l : List (String × α)) : List (String × α) :=
  (k, v) :: l.filter fun p => ¬ p.1 = k

/-! ## cosineSimilarity (service module, function cosineSimilarity)

The function guards on mismatched lengths and returns 0 before any
element is read; the arithmetic branch mirrors the source loop. -/

/-- Embedding of the exported cosineSimilarity: zero on length mismatch,
otherwise dot(a,b) / (sqrt(normA) * sqrt(normB)) accumulated pairwise. -/
def cosineSimilarity (a b : List Float) : Float :=
  if a.length ≠ b.length then 0
  else
    let dotProduct := (a.zip b).foldl (fun acc p => acc + p.1 * p.2) 0
    let normA := a.foldl (fun acc x => acc + x * x) 0
    let normB := b.foldl (fun acc x => acc + x * x) 0
    dotProduct / (Float.sqrt normA * Float.sqrt normB)

/-! ## Streaming-parse threshold (indexProject, SIZE_THRESHOLD / CHUNK_SIZE) -/

/-- SIZE_THRESHOLD constant of indexProject: 30 KB. -/
def SIZE_THRESHOLD : Nat := 30000

/-- CHUNK_SIZE constant of indexProject: parse in 30 KB slices. -/
def CHUNK_SIZE : Nat := 30000

/-- How a source file is handed to the tree-sitter parser: either the
whole buffer, or a callback returning slices keyed by byte offset. -/
inductive ParserFeed where
  | whole (source : String)
  | streaming (callback : Nat → Option String)
deriving Inhabited

/-- Discriminator for the streaming feed. -/
def ParserFeed.isStreaming : ParserFeed → Bool
  | .whole _ => false
  | .streaming _ => true

/-- The streaming callback of indexProject: for an offset inside the
source it returns source.slice(index, min(index + CHUNK_SIZE, length)),
otherwise null. -/
def streamCallback (source : String) (index : Nat) : Option String :=
  if index < source.length then
    some (strSlice source index (min (index + CHUNK_SIZE) source.length))
  else
    none

/-- The parser-feed choice of indexProject: the callback API is used
when source.length > SIZE_THRESHOLD, the whole buffer otherwise. -/
def parserFeedFor (source : String) : ParserFeed :=
  if source.length > SIZE_THRESHOLD then .streaming (streamCallback source)
  else .whole source

/-! ## RateLimiter (utils/rate-limiter.js) -/

/-- A thrown JavaScript error as seen by the rate limiter: numeric
status (0 when absent, covering both error.status and error.statusCode)
and message text. -/
structure JsError where
  status : Nat
  message : String
deriving DecidableEq, Repr

/-- RateLimiter.isRateLimitError: status 429, or a message containing
"429", "rate limit" or "too many requests". -/
def isRateLimitError (e : JsError) : Bool :=
  e.status == 429
    || strContains e.message "429"
    || strContains e.message "rate limit"
    || strContains e.message "too many requests"

/-- RateLimiter.retryDelays: the backoff schedule in milliseconds. -/
def retryDelays : List Nat := [1000, 2000, 5000, 10000]

/-- The classification the specification sentence describes: status 429
or a message matching "rate limit" / "too many requests".  Stated from
the claim text, to be compared with isRateLimitError from the source. -/
def claimRateLimitClass (e : JsError) : Bool :=
  e.status == 429
    || strContains e.message "rate limit"
    || strContains e.message "too many requests"

/-- Outcome of RateLimiter.execute for one submitted function. -/
inductive RLOutcome (α : Type) where
  | resolved (a : α)
  | rejected (e : JsError)
  | exhausted (message : String)
deriving DecidableEq, Repr

/-- One queue pass of RateLimiter.processQueue for a single submitted
function.  The i-th attempt behaves as fn i.  The second argument is
retriesLeft = retryDelays.length - retryCount, so the source guard
retryCount < maxRetries is retriesLeft > 0 and the delay picked is
retryDelays[retryCount].  Returns the outcome together with the list of
backoff delays that were awaited. -/
def executeAttempts {α : Type} (fn : Nat → Except JsError α) :
    Nat → Nat → RLOutcome α × List Nat
  | attempt, 0 =>
    match fn attempt with
    | .ok a => (.resolved a, [])
    | .error e =>
      if isRateLimitError e then
        (.exhausted ("Rate limit exceeded after " ++ toString retryDelays.length
          ++ " retries: " ++ e.message), [])
      else (.rejected e, [])
  | attempt, retriesLeft + 1 =>
    match fn attempt with
    | .ok a => (.resolved a, [])
    | .error e =>
      if isRateLimitError e then
        let retryCount := retryDelays.length - (retriesLeft + 1)
        let r := executeAttempts fn (attempt + 1) retriesLeft
        (r.1, retryDelays.getD retryCount 0 :: r.2)
      else (.rejected e, [])

/-- RateLimiter.execute on a fresh limiter for a single submitted
function: attempt 0 with the full retry budget. -/
def rateLimiterExecute {α : Type} (fn : Nat → Except JsError α) :
    RLOutcome α × List Nat :=
  executeAttempts fn 0 retryDelays.length

/-! ## Token counting (utils/token-counter.js) -/

/-- Size decisions produced by analyzeCodeSize. -/
inductive SizeDecision where
  | too_small
  | optimal
  | needs_subdivision
  | too_large
deriving DecidableEq, Repr

/-- Decisions of the character pre-filter. -/
inductive PreDecision where
  | too_small
  | too_large
  | optimal
  | needs_tokenization
deriving DecidableEq, Repr

/-- How a size was obtained. -/
inductive SizeMethod where
  | char_estimate
  | tokenized
  | chars
deriving DecidableEq, Repr

/-- The limits record produced by getSizeLimits. -/
structure SizeLimits where
  min : Nat
  optimal : Nat
  max : Nat
  overlap : Nat
  unit : String
deriving DecidableEq, Repr

/-- estimateTokensFromChars: Math.ceil(charCount / 4). -/
def estimateTokensFromChars (charCount : Nat) : Nat :=
  (charCount + 3) / 4

/-- Result of the character pre-filter. -/
structure PreFilterResult where
  decision : PreDecision
  estimate : Nat
deriving DecidableEq, Repr

/-- preFilterByChars: classify the character-estimated token count
against the relaxed margins minEstimate = limits.min * 0.8,
maxEstimate = limits.max * 1.2 and the optimal band
limits.optimal * 0.8 .. limits.optimal * 1.2.  The fractional margins
are written as the exact integer cross-multiplications
(x < m * 0.8 iff 10 * x < 8 * m, and so on). -/
def preFilterByChars (codeLen : Nat) (limits : SizeLimits) : PreFilterResult :=
  let estimatedTokens := estimateTokensFromChars codeLen
  if 10 * estimatedTokens < 8 * limits.min then ⟨.too_small, estimatedTokens⟩
  else if 10 * estimatedTokens > 12 * limits.max then ⟨.too_large, estimatedTokens⟩
  else if 8 * limits.optimal ≤ 10 * estimatedTokens ∧
      10 * estimatedTokens ≤ 12 * limits.optimal then
    ⟨.optimal, estimatedTokens⟩
  else ⟨.needs_tokenization, estimatedTokens⟩

/-- Result of analyzeCodeSize. -/
structure SizeAnalysis where
  size : Nat
  decision : SizeDecision
  method : SizeMethod
deriving DecidableEq, Repr

/-- analyzeCodeSize: hybrid token counting.  The character estimate is
returned only when allowEstimateForSkip is set and the pre-filter says
too_large; every other call tokenizes with the provided counter and
classifies against the exact bounds.  The LRU cache of
countTokensWithCache is keyed by the exact code string and stores the
counter result, so it is transparent here and the counter is applied
directly. -/
def analyzeCodeSize (code : String) (limits : SizeLimits)
    (tokenCounter : String → Nat) (allowEstimateForSkip : Bool := false) :
    SizeAnalysis :=
  let preFilter := preFilterByChars code.length limits
  if allowEstimateForSkip = true ∧ preFilter.decision = PreDecision.too_large then
    ⟨preFilter.estimate, .too_large, .char_estimate⟩
  else
    let actualSize := tokenCounter code
    let decision :=
      if actualSize < limits.min then SizeDecision.too_small
      else if actualSize > limits.max then SizeDecision.too_large
      else if actualSize ≤ limits.optimal then SizeDecision.optimal
      else SizeDecision.needs_subdivision
    ⟨actualSize, decision, .tokenized⟩

/-! ## Tree-sitter nodes and the semantic chunker
(src/chunking/semantic-chunker.js and the yieldChunk / processChunk
helpers of indexProject) -/

/-- A parsed syntax node: type tag, byte span, the declaration
identifier that extractSymbolName would find in the subtree (none when
the walk finds nothing and the positional fallback fires), and child
nodes. -/
inductive TSNode where
  | mk (type : String) (startIndex endIndex : Nat) (ident : Option String)
      (children : List TSNode)

/-- Node type tag. -/
def TSNode.type : TSNode → String
  | .mk t _ _ _ _ => t

/-- Start byte offset. -/
def TSNode.startIndex : TSNode → Nat
  | .mk _ s _ _ _ => s

/-- End byte offset. -/
def TSNode.endIndex : TSNode → Nat
  | .mk _ _ e _ _ => e

/-- The declaration identifier available in the subtree, if any. -/
def TSNode.ident : TSNode → Option String
  | .mk _ _ _ i _ => i

/-- Child nodes. -/
def TSNode.children : TSNode → List TSNode
  | .mk _ _ _ _ cs => cs

/-- A language rule: top-level chunk node types and, per node type, the
subdivision node types (rule.subdivisionTypes?.[node.type] || []). -/
structure LangRule where
  lang : String
  nodeTypes : List String
  subdivisionTypes : String → List String

/- The walk of findSemanticSubdivisions: at depth > 0 a node whose
type is a subdivision type is collected and not descended into. -/
mutual
def fssWalk (types : List String) : Nat → TSNode → List TSNode
  | depth, .mk t s e id cs =>
    if 0 < depth ∧ t ∈ types then [.mk t s e id cs]
    else fssWalkList types (depth + 1) cs
def fssWalkList (types : List String) : Nat → List TSNode → List TSNode
  | _, [] => []
  | depth, c :: rest => fssWalk types depth c ++ fssWalkList types depth rest
end

/-- findSemanticSubdivisions: nothing when the rule lists no
subdivision types for this node type, else the depth-guarded walk. -/
def findSemanticSubdivisions (node : TSNode) (rule : LangRule) : List TSNode :=
  let subdivisionTypes := rule.subdivisionTypes node.type
  if subdivisionTypes = [] then [] else fssWalk subdivisionTypes 0 node

/-- The model profile fields consumed by getSizeLimits and
analyzeNodeForChunking.  The token counter is optional: none models a
profile without profile.tokenCounter. -/
structure ModelProfile where
  useTokens : Bool
  tokenCounter : Option (String → Nat)
  optimalTokens : Nat
  minChunkTokens : Nat
  maxChunkTokens : Nat
  overlapTokens : Nat
  optimalChars : Nat
  minChunkChars : Nat
  maxChunkChars : Nat
  overlapChars : Nat

/-- getSizeLimits: token limits when token counting is enabled and a
counter exists, character limits otherwise. -/
def getSizeLimits (profile : ModelProfile) : SizeLimits :=
  if profile.useTokens = true ∧ profile.tokenCounter.isSome then
    ⟨profile.minChunkTokens, profile.optimalTokens, profile.maxChunkTokens,
      profile.overlapTokens, "tokens"⟩
  else
    ⟨profile.minChunkChars, profile.optimalChars, profile.maxChunkChars,
      profile.overlapChars, "characters"⟩

/-- source.slice(node.startIndex, node.endIndex). -/
def sliceNode (source : String) (n : TSNode) : String :=
  strSlice source n.startIndex n.endIndex

/-- Result of analyzeNodeForChunking. -/
structure ChunkAnalysis where
  isSingleChunk : Bool
  needsSubdivision : Bool
  subdivisionCandidates : List TSNode
  size : Nat
  unit : String
  method : SizeMethod

/-- analyzeNodeForChunking: slice the node, size it with analyzeCodeSize
when token counting is enabled (note: without passing
allowEstimateForSkip, so the default false applies), else fall back to
the character count; subdivision triggers only above limits.max. -/
def analyzeNodeForChunking (node : TSNode) (source : String) (rule : LangRule)
    (profile : ModelProfile) : ChunkAnalysis :=
  let code := sliceNode source node
  let limits := getSizeLimits profile
  let sized : Nat × SizeMethod :=
    match profile.useTokens, profile.tokenCounter with
    | true, some tc =>
      let analysis := analyzeCodeSize code limits tc
      (analysis.size, analysis.method)
    | _, _ => (code.length, SizeMethod.chars)
  { isSingleChunk := decide (sized.1 ≤ limits.max)
    needsSubdivision := decide (sized.1 > limits.max)
    subdivisionCandidates := findSemanticSubdivisions node rule
    size := sized.1
    unit := limits.unit
    method := sized.2 }

/-- A small subdivision candidate collected for merging (the
smallChunks entries of yieldChunk). -/
structure SmallChunk where
  node : TSNode
  code : String
  size : Nat

/-- An action taken by the subdivision branch of yieldChunk.  Recursive
processing of a normal-sized candidate (the nested yieldChunk call) is
recorded as a recurse action; a processChunk invocation is recorded as
an emit action carrying the node handed over, the code, the suffix
argument and the symbol that processChunk computes from them; skipped
small candidates are recorded with their count
(chunkingStats.skippedSmall += smallChunks.length). -/
inductive ChunkEvent where
  | recurse (sub : TSNode)
  | emit (node : TSNode) (code : String) (suffix : Option String) (symbol : String)
  | skippedSmall (count : Nat)

/-- Whether an event is a processChunk invocation. -/
def ChunkEvent.isEmit : ChunkEvent → Bool
  | .emit _ _ _ _ => true
  | _ => false

/-- extractSymbolName of processChunk, condensed: the identifier search
over the subtree is summarized by the ident field (covering the typed
lookups, findMethodName, findAnyIdentifier and the regex fallbacks);
when nothing is found, the positional fallback node.type _ startIndex
is produced, so the result is never empty. -/
def extractSymbolName (node : TSNode) : String :=
  match node.ident with
  | some s => s
  | none => node.type ++ "_" ++ toString node.startIndex

/-- The symbol processChunk stores: when a suffix is passed, the
extracted name is extended with _part followed by the suffix. -/
def processChunkSymbol (node : TSNode) (suffix : Option String) : String :=
  let symbol := extractSymbolName node
  match suffix with
  | some sfx => (symbol ++ "_part") ++ sfx
  | none => symbol

/-- Builds the emit event for a processChunk call. -/
def mkEmit (node : TSNode) (code : String) (suffix : Option String) : ChunkEvent :=
  .emit node code suffix (processChunkSymbol node suffix)

/-- The candidate loop of the subdivision branch of yieldChunk
(for subNode of analysis.subdivisionCandidates): a candidate whose
analyzed size is below limits.min joins the smallChunks collection,
every other candidate is processed recursively. -/
def subdivisionLoop (source : String) (rule : LangRule) (profile : ModelProfile)
    (limits : SizeLimits) (cands : List TSNode) :
    List ChunkEvent × List SmallChunk :=
  cands.foldl
    (fun acc subNode =>
      let subAnalysis := analyzeNodeForChunking subNode source rule profile
      if subAnalysis.size < limits.min then
        (acc.1, acc.2 ++ [⟨subNode, sliceNode source subNode, subAnalysis.size⟩])
      else
        (acc.1 ++ [.recurse subNode], acc.2))
    ([], [])

/-- The subdivision branch of yieldChunk: run the candidate loop, then
merge the collected small chunks when their combined size reaches
limits.min or there are at least three of them, building a pseudo-node
with the _merged type suffix spanning from the first small candidate to
the last and the symbol suffix small_methods_ N; otherwise count them
as skipped. -/
def subdivideStep (node : TSNode) (source : String) (rule : LangRule)
    (profile : ModelProfile) (cands : List TSNode) : List ChunkEvent :=
  let limits := getSizeLimits profile
  let pass := subdivisionLoop source rule profile limits cands
  let events := pass.1
  let smallChunks := pass.2
  match smallChunks with
  | [] => events
  | first :: _ =>
    let totalSmallSize := (smallChunks.map (·.size)).foldl (· + ·) 0
    if totalSmallSize ≥ limits.min ∨ smallChunks.length ≥ 3 then
      let mergedCode := String.intercalate "\n\n" (smallChunks.map (·.code))
      let lastSmall := smallChunks.getLastD first
      let mergedNode : TSNode :=
        .mk (node.type ++ "_merged") first.node.startIndex lastSmall.node.endIndex
          none []
      let suffix := "small_methods_" ++ toString smallChunks.length
      events ++ [mkEmit mergedNode mergedCode (some suffix)]
    else
      events ++ [.skippedSmall smallChunks.length]

/-! ## Embedding blob serialization (embedAndStore / searchCode)

embedAndStore persists the embedding column as
Buffer.from(JSON.stringify(embedding)) and searchCode reads it back as
JSON.parse(chunk.embedding.toString()).  Embedding entries are modeled
as integers (JSON number rendering of a JavaScript double restricted to
its exact integral values); the bytes are the UTF-8 code units of the
JSON text, and every character involved is ASCII so each byte equals
the character code. -/

/-- Decimal digit character for d below ten. -/
def natDigitChar : Nat → Char
  | 0 => '0'
  | 1 => '1'
  | 2 => '2'
  | 3 => '3'
  | 4 => '4'
  | 5 => '5'
  | 6 => '6'
  | 7 => '7'
  | 8 => '8'
  | 9 => '9'
  | _ => '*'

/-- Little-endian base-10 digits with structural fuel (n itself is
enough fuel, since the argument strictly shrinks under division). -/
def natDigitsAux : Nat → Nat → List Nat
  | 0, _ => []
  | _ + 1, 0 => []
  | fuel + 1, n + 1 => ((n + 1) % 10) :: natDigitsAux fuel ((n + 1) / 10)

/-- Little-endian base-10 digits of a natural number. -/
def natDigits (n : Nat) : List Nat := natDigitsAux n n

/-- Decimal rendering of a natural number, as JSON.stringify renders an
integral nonnegative double. -/
def renderNat (n : Nat) : List Char :=
  if n = 0 then ['0'] else ((natDigits n).map natDigitChar).reverse

/-- Decimal rendering of an integer. -/
def renderInt : Int → List Char
  | .ofNat n => renderNat n
  | .negSucc m => '-' :: renderNat (m + 1)

/-- Join rendered array elements with commas, as JSON.stringify does. -/
def joinComma : List (List Char) → List Char
  | [] => []
  | [p] => p
  | p :: rest => p ++ ',' :: joinComma rest

/-- Characters of JSON.stringify(v) for an array of integral numbers. -/
def jsonArrayChars (v : List Int) : List Char :=
  '[' :: (joinComma (v.map renderInt) ++ [']'])

/-- The stored embedding column: Buffer.from(JSON.stringify(embedding)),
one byte per ASCII character. -/
def embeddingBlob (v : List Int) : List Nat :=
  (jsonArrayChars v).map Char.toNat

/-- Digit value of a character, if it is a decimal digit. -/
def charDigit? (c : Char) : Option Nat :=
  if 48 ≤ c.toNat ∧ c.toNat ≤ 57 then some (c.toNat - 48) else none

/-- Parse a nonempty all-digit character list as a natural number. -/
def parseNatChars (cs : List Char) : Option Nat :=
  match cs.mapM charDigit? with
  | some ds => if ds = [] then none else some (Nat.ofDigits 10 ds.reverse)
  | none => none

/-- Parse an optional minus sign followed by digits. -/
def parseIntChars : List Char → Option Int
  | [] => none
  | c :: rest =>
    if c = '-' then (parseNatChars rest).map fun n => -(n : Int)
    else (parseNatChars (c :: rest)).map fun n => (n : Int)

/-- Split a character list at commas. -/
def splitCommaAux : List Char → List Char → List (List Char)
  | acc, [] => [acc.reverse]
  | acc, c :: rest =>
    if c = ',' then acc.reverse :: splitCommaAux [] rest
    else splitCommaAux (c :: acc) rest

/-- Comma splitter entry point. -/
def splitComma (cs : List Char) : List (List Char) :=
  splitCommaAux [] cs

/-- JSON.parse of the stored blob, specialized to the array-of-integral-
numbers shape that embedAndStore writes: bytes back to characters,
brackets stripped, the body split at commas and each entry parsed as an
integer. -/
def parseJsonChars : List Char → Option (List Int)
  | [] => none
  | c :: rest =>
    if c = '[' then
      match rest.getLast? with
      | some d =>
        if d = ']' then
          let body := rest.dropLast
          if body = [] then some [] else (splitComma body).mapM parseIntChars
        else none
      | none => none
    else none

/-- Entry point on the stored bytes. -/
def parseEmbeddingBlob (bytes : List Nat) : Option (List Int) :=
  parseJsonChars (bytes.map Char.ofNat)

/-- Modelled from the spec: "Vectors are stored as a binary blob: a
length-prefixed little-endian f32[]".  Little-endian byte split of a
32-bit word. -/
def u32le (n : Nat) : List Nat :=
  [n % 256, n / 256 % 256, n / 65536 % 256, n / 16777216 % 256]

/-- Floor of the base-2 logarithm with structural fuel. -/
def natLog2Aux : Nat → Nat → Nat
  | 0, _ => 0
  | fuel + 1, n => if 2 ≤ n then natLog2Aux fuel (n / 2) + 1 else 0

/-- Floor of the base-2 logarithm. -/
def natLog2 (n : Nat) : Nat := natLog2Aux n n

/-- Modelled from the spec: the IEEE-754 binary32 bit pattern of an
integral value (exact for magnitudes below 2^24, truncated mantissa
beyond), as the specified f32 serialization would store it. -/
def f32bitsOfInt (i : Int) : Nat :=
  if i = 0 then 0
  else
    let sign := if i < 0 then 1 else 0
    let m := i.natAbs
    let e := natLog2 m
    sign * 2 ^ 31 + (e + 127) * 2 ^ 23 + (m * 2 ^ 23 / 2 ^ e - 2 ^ 23)

/-- Modelled from the spec: the binary blob format the specification
describes, a u32 length prefix followed by each component as a
little-endian f32. -/
def specEncodeEmbedding (v : List Int) : List Nat :=
  u32le v.length ++ v.flatMap (fun x => u32le (f32bitsOfInt x))

/-! ## Indexer orchestrator (indexProject)

The model captures the incremental skip and retention machinery of
indexProject: the per-file merkle comparison (continue when the stored
shaFile equals the recomputed hash), the per-chunk codemap retention
(an unchanged chunk_id / sha pair is never re-embedded), stale chunk
deletion, the working-copy manifest update, and the full-scan removal
of manifest entries whose files are gone.  Hashing (computeFastHash,
SHA-1) and the parse/walk producing the chunk list of a file are
deterministic functions supplied as the environment; a file whose
extension has no LANG_RULE yields none and is skipped.  Embedding and
storage I/O and the parse-error fallback path are outside the claims
settled here. -/

/-- One manifest entry: shaFile plus the chunk hashes of the file. -/
structure MerkleEntry where
  shaFile : String
  chunkShas : List String
deriving DecidableEq, Repr

/-- The codemap fields consulted by the retention logic. -/
structure CodemapEntry where
  file : String
  symbol : String
  sha : String
deriving DecidableEq, Repr

/-- Deterministic environment of a run: the two hash functions and the
parsing pipeline mapping a (path, source) pair to its emitted
(symbol, code) chunks, none when the extension is unsupported. -/
structure IndexEnv where
  fastHash : String → String
  sha1 : String → String
  chunker : String → String → Option (List (String × String))

/-- Mutable state persisted between runs: merkle manifest and codemap. -/
structure IndexState where
  merkle : List (String × MerkleEntry)
  codemap : List (String × CodemapEntry)
deriving DecidableEq, Repr

/-- Accumulator threaded through a run: the working-copy manifest, the
codemap and processedChunks. -/
structure IndexAcc where
  updatedMerkle : List (String × MerkleEntry)
  codemap : List (String × CodemapEntry)
  processedChunks : Nat
deriving DecidableEq, Repr

/-- The per-chunk tail of processChunk: compute sha and chunk_id; when
codemap[chunkId]?.sha equals sha the chunk is retained (its merkle hash
recorded, nothing embedded), otherwise embedAndStore writes the row and
codemap entry and processedChunks increments.  Returns the codemap, the
number of embedded chunks, the emitted chunk ids and their merkle
hashes. -/
def processFileChunks (env : IndexEnv) (rel : String)
    (chunks : List (String × String)) (codemap : List (String × CodemapEntry)) :
    List (String × CodemapEntry) × Nat × List String × List String :=
  chunks.foldl
    (fun acc chunk =>
      let symbol := chunk.1
      let code := chunk.2
      let sha := env.sha1 code
      let chunkId := rel ++ ":" ++ symbol ++ ":" ++ sha.take 8
      let chunkMerkleHash := env.fastHash code
      match alookup chunkId acc.1 with
      | some entry =>
        if entry.sha = sha then
          (acc.1, acc.2.1, acc.2.2.1 ++ [chunkId], acc.2.2.2 ++ [chunkMerkleHash])
        else
          (aset chunkId ⟨rel, symbol, sha⟩ acc.1, acc.2.1 + 1,
            acc.2.2.1 ++ [chunkId], acc.2.2.2 ++ [chunkMerkleHash])
      | none =>
        (aset chunkId ⟨rel, symbol, sha⟩ acc.1, acc.2.1 + 1,
          acc.2.2.1 ++ [chunkId], acc.2.2.2 ++ [chunkMerkleHash]))
    (codemap, 0, [], [])

/-- One file pass of indexProject: unsupported extensions are skipped;
a file whose stored manifest shaFile (read from the manifest loaded at
run start) equals the recomputed hash is skipped entirely; otherwise
the chunks are processed, stale chunk ids (present for this file before
the pass but not re-emitted) are deleted, and the working-copy manifest
entry is rewritten. -/
def indexFile (env : IndexEnv) (origMerkle : List (String × MerkleEntry))
    (acc : IndexAcc) (rel source : String) : IndexAcc :=
  match env.chunker rel source with
  | none => acc
  | some chunks =>
    let fileHash := env.fastHash source
    let skip :=
      match alookup rel origMerkle with
      | some prev => decide (prev.shaFile = fileHash)
      | none => false
    if skip then acc
    else
      let existingIds := (acc.codemap.filter fun p => p.2.file = rel).map (·.1)
      let pass := processFileChunks env rel chunks acc.codemap
      let emitted := pass.2.2.1
      let stale := existingIds.filter fun id => ¬ id ∈ emitted
      { updatedMerkle := aset rel ⟨fileHash, pass.2.2.2⟩ acc.updatedMerkle
        codemap := pass.1.filter fun p => ¬ p.1 ∈ stale
        processedChunks := acc.processedChunks + pass.2.1 }

/-- A full indexProject run over the enumerated files: the per-file
loop followed by the full-scan post-pass removing manifest entries and
chunks of files no longer present, returning the new persisted state
and processedChunks. -/
def indexProject (env : IndexEnv) (files : List (String × String))
    (st : IndexState) : IndexState × Nat :=
  let run := files.foldl (fun acc f => indexFile env st.merkle acc f.1 f.2)
    ⟨st.merkle, st.codemap, 0⟩
  let fileSet := files.map (·.1)
  let staleFiles := (st.merkle.map (·.1)).filter fun k => ¬ k ∈ fileSet
  let finalMerkle := run.updatedMerkle.filter fun p => ¬ p.1 ∈ staleFiles
  let finalCodemap := run.codemap.filter fun p => ¬ p.2.file ∈ staleFiles
  (⟨finalMerkle, finalCodemap⟩, run.processedChunks)

/-! ## Retrieval engine (searchCode, getOverview, searchByIntention)

The database is modeled as the row lists the SQL statements read; the
embedding column is carried as a decoded rational vector (its byte
serialization is the subject of embeddingBlob / parseEmbeddingBlob
above).  Code of the repository that is not among the provided sources
(src/search/applyScope.js scope normalization and glob matching,
src/search/bm25Index.js, src/search/hybrid.js reciprocal rank fusion,
src/ranking/boostSymbols.js) and the external model calls (query
embedding, cosine scores, cross-encoder scores) are supplied as oracle
parameters; every theorem quantifies over them. -/

/-- A code_chunks row as selected by searchCode. -/
structure ChunkRow where
  id : String
  file_path : String
  symbol : String
  sha : String
  lang : String
  chunk_type : String
  embedding : List ℚ
  pampa_tags : List String
  pampa_intent : Option String
  pampa_description : Option String
  embedding_provider : String
  embedding_dimensions : Nat
deriving DecidableEq, Repr

/-- An intention_cache row. -/
structure IntentionRow where
  query_normalized : String
  original_query : String
  target_sha : String
  confidence : ℚ
  usage_count : Nat
deriving DecidableEq, Repr

/-- The stores searchCode reads: database presence flag, code_chunks,
intention_cache, and the on-disk chunk bodies keyed by sha. -/
structure SearchDb where
  dbExists : Bool
  rows : List ChunkRow
  intentions : List IntentionRow
  chunkStore : List (String × String)
deriving Repr

/-- Normalized scope options of a search request (the output shape of
normalizeScopeFilters, per the interface in section 6 of the spec). -/
structure ScopeOptions where
  path_glob : List String
  tags : List String
  lang : List String
  hybrid : Bool := true
  bm25 : Bool := true
  symbol_boost : Bool := true
  reranker : String := "off"
deriving DecidableEq, Repr

/-- hasScopeFilters (src/types/search.js): any of the three filter
lists nonempty. -/
def hasScopeFilters (scope : ScopeOptions) : Bool :=
  !scope.path_glob.isEmpty || !scope.tags.isEmpty || !scope.lang.isEmpty

/-- Modelled from the spec: "Apply scope filters: path_glob[] (glob
match against file_path), tags[] (JSON-array contains any), lang[]
(exact language match)" — src/search/applyScope.js is not among the
provided sources.  The glob engine is the external matcher argument. -/
def applyScope (globMatch : String → String → Bool) (chunks : List ChunkRow)
    (scope : ScopeOptions) : List ChunkRow :=
  chunks.filter fun row =>
    (scope.path_glob.isEmpty || scope.path_glob.any fun g => globMatch g row.file_path)
      && (scope.tags.isEmpty || scope.tags.any fun t => row.pampa_tags.contains t)
      && (scope.lang.isEmpty || scope.lang.contains row.lang)

/-- JavaScript String.prototype.trim: strip leading and trailing
whitespace.  Done on the character list so it evaluates in the
kernel. -/
def jsTrim (s : String) : String :=
  ⟨((s.data.dropWhile fun c => c.isWhitespace).reverse.dropWhile
      fun c => c.isWhitespace).reverse⟩

/-- Split a character list at spaces (the split step of the whitespace
collapse in normalizeQuery). -/
def splitSpaceAux : List Char → List Char → List (List Char)
  | [], acc => [acc.reverse]
  | c :: rest, acc =>
    if c = ' ' then acc.reverse :: splitSpaceAux rest []
    else splitSpaceAux rest (c :: acc)

/-- normalizeQuery of the intention system: lower-case, trim, strip
question marks, the Spanish-aware word map, and whitespace collapse.
The word-boundary regexes of the source are modeled at whitespace
token granularity; the stripe and checkout replacements map a word to
itself and are absorbed. -/
def normalizeQuery (query : String) : String :=
  let lowered := jsTrim ⟨query.data.map Char.toLower⟩
  let stripped : String := ⟨lowered.data.filter fun c => ¬ (c = '?' ∨ c = '¿')⟩
  let words := (splitSpaceAux stripped.data []).filter fun w => ¬ w = []
  let mapped : List String := words.map fun w =>
    if (⟨w⟩ : String) = "cómo" then "como"
    else if (⟨w⟩ : String) = "create" then "crear"
    else if (⟨w⟩ : String) = "session" then "sesion"
    else ⟨w⟩
  String.intercalate " " mapped

/-- The row searchByIntention returns on a direct match: the cached
target plus the chunk columns of the LEFT JOIN on target_sha = sha
(placeholders when no chunk row joins). -/
structure IntentionMatch where
  sha : String
  confidence : ℚ
  usageCount : Nat
  filePath : String
  symbol : String
  lang : String
  chunkType : String
deriving DecidableEq, Repr

/-- searchByIntention: normalize the query, take the intention row with
highest confidence (then usage count), and join chunk columns by sha
over all of code_chunks — note: without any provider or dimension
filter. -/
def searchByIntention (db : SearchDb) (query : String) : Option IntentionMatch :=
  if db.dbExists = false then none
  else
    let normalizedQuery := normalizeQuery query
    let matched := db.intentions.filter fun i => i.query_normalized = normalizedQuery
    let sorted := matched.insertionSort fun a b =>
      b.confidence < a.confidence ∨
        (b.confidence = a.confidence ∧ b.usage_count ≤ a.usage_count)
    match sorted.head? with
    | none => none
    | some intention =>
      let joined := db.rows.find? fun c => c.sha = intention.target_sha
      some
        { sha := intention.target_sha
          confidence := intention.confidence
          usageCount := intention.usage_count
          filePath := (joined.map (·.file_path)).getD "unknown"
          symbol := (joined.map (·.symbol)).getD "direct_match"
          lang := (joined.map (·.lang)).getD "detected"
          chunkType := (joined.map (·.chunk_type)).getD "unknown" }

/-- getChunk: read the chunk body for a sha from the on-disk store. -/
def getChunk (db : SearchDb) (sha : String) : Option String :=
  alookup sha db.chunkStore

/-- The meta object attached to a result.  Intention results carry no
id; overview results carry no searchType. -/
structure ResultMeta where
  id : Option String := none
  symbol : String
  score : ℚ
  searchType : Option String := none
  rerankerScore : Option ℚ := none
  rerankerRank : Option Nat := none
deriving DecidableEq, Repr

/-- One result entry of searchCode / getOverview. -/
structure ResultItem where
  type : String
  lang : String
  path : String
  sha : String
  data : Option String
  meta : ResultMeta
deriving DecidableEq, Repr

/-- The structured return value: success flag, error kind, results. -/
structure SearchOutput where
  success : Bool
  error : Option String
  results : List ResultItem
deriving DecidableEq, Repr

/-- The ORDER BY file_path, symbol relation of getOverview. -/
def overviewRowRel (a b : ChunkRow) : Prop :=
  a.file_path < b.file_path ∨ (a.file_path = b.file_path ∧ a.symbol ≤ b.symbol)

/-- The same ordering read off two result items. -/
def overviewResRel (a b : ResultItem) : Prop :=
  a.path < b.path ∨ (a.path = b.path ∧ a.meta.symbol ≤ b.meta.symbol)

instance : DecidableRel overviewRowRel := fun a b => by
  unfold overviewRowRel; infer_instance

instance : DecidableRel overviewResRel := fun a b => by
  unfold overviewResRel; infer_instance

instance : IsTotal ChunkRow overviewRowRel where
  total a b := by
    unfold overviewRowRel
    rcases lt_trichotomy a.file_path b.file_path with h | h | h
    · exact Or.inl (Or.inl h)
    · rcases le_total a.symbol b.symbol with hs | hs
      · exact Or.inl (Or.inr ⟨h, hs⟩)
      · exact Or.inr (Or.inr ⟨h.symm, hs⟩)
    · exact Or.inr (Or.inl h)

instance : IsTrans ChunkRow overviewRowRel where
  trans a b c hab hbc := by
    unfold overviewRowRel at hab hbc ⊢
    rcases hab with h1 | ⟨h1, h1s⟩ <;> rcases hbc with h2 | ⟨h2, h2s⟩
    · exact Or.inl (lt_trans h1 h2)
    · exact Or.inl (h2 ▸ h1)
    · exact Or.inl (h1 ▸ h2)
    · exact Or.inr ⟨h1.trans h2, le_trans h1s h2s⟩

/-- getOverview: database_not_found when the database file is absent;
otherwise up to limit rows ordered by file_path then symbol, each with
score 1.0. -/
def getOverview (db : SearchDb) (limit : Nat) : SearchOutput :=
  if db.dbExists = false then
    { success := false, error := some "database_not_found", results := [] }
  else
    let chunks := (db.rows.insertionSort overviewRowRel).take limit
    { success := true
      error := none
      results := chunks.map fun c =>
        { type := "code", lang := c.lang, path := c.file_path, sha := c.sha
          data := none
          meta := { id := some c.id, symbol := c.symbol, score := 1 } } }

/-- A scored candidate of the vector phase (the info record built in
the similarity loop and threaded through fusion and reranking).  The
originating row is kept whole; the loop copies its columns out of it. -/
structure Info where
  row : ChunkRow
  score : ℚ
  vectorScore : ℚ
  boostScore : ℚ
  hybridScore : Option ℚ := none
  bm25Score : Option ℚ := none
  bm25Rank : Option Nat := none
  vectorRank : Option Nat := none
  rerankerScore : Option ℚ := none
  rerankerRank : Option Nat := none
  symbolBoost : Option ℚ := none
  symbolBoostSources : List String := []
deriving DecidableEq, Repr

/-- An entry of the fused list produced by reciprocalRankFusion. -/
structure FusedEntry where
  id : String
  score : ℚ
  bm25Score : Option ℚ := none
  bm25Rank : Option Nat := none
  vectorRank : Option Nat := none
deriving DecidableEq, Repr

/-- External collaborators of a search: the embedding provider, the
cosine scorer on decoded vectors, the glob matcher, the per-candidate
symbol boost (score update, boost value, sources — modelled from the
spec, src/ranking/boostSymbols.js not being among the sources), the
lazily built BM25 index, reciprocal rank fusion, and the cross-encoder
document scores (none models a reranker that fails to load or errors,
the soft-failure path). -/
structure SearchOracle where
  embedQuery : String → List ℚ
  similarity : List ℚ → List ℚ → ℚ
  globMatch : String → String → Bool
  symbolBoostOf : String → Info → ℚ × Option ℚ × List String
  bm25Index : Option (String → Nat → List (String × ℚ))
  rrf : List (String × ℚ) → List (String × ℚ) → Nat → List FusedEntry
  rerankScoreOf : Option (Info → ℚ)

/-- Search configuration: the provider name and dimensions the request
resolved to, and RERANKER_MAX_CANDIDATES (PAMPAX_RERANKER_MAX, default
50). -/
structure SearchConfig where
  provider : String
  dimensions : Nat
  rerankerMaxCandidates : Nat := 50
deriving DecidableEq, Repr

/-- applySymbolBoost applied to one candidate: the oracle yields the
updated score, the recorded symbolBoost and its sources; the candidate
row is untouched. -/
def applySymbolBoostEntry (oracle : SearchOracle) (query : String)
    (info : Info) : Info :=
  let b := oracle.symbolBoostOf query info
  { info with score := b.1, symbolBoost := b.2.1, symbolBoostSources := b.2.2 }

/-- setCandidateRanks of the reranker: the sorted candidate list gets
rerankerScore and rerankerRank = position + 1. -/
def setCandidateRanks (sorted : List (Info × ℚ)) : List Info :=
  sorted.enum.map fun p =>
    { p.2.1 with rerankerScore := some p.2.2, rerankerRank := some (p.1 + 1) }

/-- The descending comparator of the reranker sort
(sort((a, b) => b.score - a.score) over (candidate, score) pairs). -/
def rerankPairRel (a b : Info × ℚ) : Prop :=
  b.2 ≤ a.2

instance : DecidableRel rerankPairRel := fun a b => by
  unfold rerankPairRel; infer_instance

instance : IsTotal (Info × ℚ) rerankPairRel :=
  ⟨fun a b => le_total b.2 a.2⟩

instance : IsTrans (Info × ℚ) rerankPairRel :=
  ⟨fun _ _ _ h1 h2 => le_trans h2 h1⟩

/-- rerankCrossEncoder for a candidate slice: pass-through for at most
one candidate or an unavailable model; otherwise score the top
min(options.max, count) candidates, sort them by descending score,
assign ranks, and append the untouched remainder.  The local and HTTP
backends produce this same shape; their document scoring is the score
oracle. -/
def rerankCrossEncoder (maxOpt : Nat) (scoreOf : Option (Info → ℚ))
    (candidates : List Info) : List Info :=
  if candidates.length ≤ 1 then candidates
  else
    match scoreOf with
    | none => candidates
    | some f =>
      let maxCandidates := min maxOpt candidates.length
      if maxCandidates ≤ 1 then candidates
      else
        let topCandidates := candidates.take maxCandidates
        let scored := (topCandidates.map fun c => (c, f c)).insertionSort
          rerankPairRel
        setCandidateRanks scored ++ candidates.drop maxCandidates

/-- Phase 6 of searchCode: the reranker is invoked only when more than
one candidate remains and the requested scope mode is the string
transformers, over the top min(RERANKER_MAX_CANDIDATES, count)
candidates; any reranker failure keeps the prior ordering. -/
def rerankPhase (cfg : SearchConfig) (oracle : SearchOracle)
    (rerankerMode : String) (vectorResults : List Info) : List Info :=
  if 1 < vectorResults.length ∧ rerankerMode = "transformers" then
    rerankCrossEncoder (min cfg.rerankerMaxCandidates vectorResults.length)
      oracle.rerankScoreOf vectorResults
  else vectorResults

/-- The descending-score comparator of phase 5
(sort((a, b) => b.score - a.score)). -/
def scoreDescRel (a b : Info) : Prop :=
  b.score ≤ a.score

instance : DecidableRel scoreDescRel := fun a b => by
  unfold scoreDescRel; infer_instance

/-- symbolBoost of a candidate, defaulting to 0 as the re-sort does. -/
def sbOf (i : Info) : ℚ :=
  i.symbolBoost.getD 0

/-- hybridScore of a candidate with Number.NEGATIVE_INFINITY as the
default, modeled in WithBot. -/
def hybKey (i : Info) : WithBot ℚ :=
  match i.hybridScore with
  | some q => (q : WithBot ℚ)
  | none => ⊥

/-- The (score, symbolBoost, hybridScore) lexicographic descending
comparator used when a symbol boost fired. -/
def tripleKeyRel (a b : Info) : Prop :=
  b.score < a.score ∨
    (b.score = a.score ∧
      (sbOf b < sbOf a ∨ (sbOf b = sbOf a ∧ hybKey b ≤ hybKey a)))

instance : DecidableRel tripleKeyRel := fun a b => by
  unfold tripleKeyRel; infer_instance

/-- The info record built for one scoped chunk in the similarity loop
of phase 4: cosine similarity of the decoded embeddings plus the
metadata boosts (0.2 for an intent hit, 0.1 per tag hit), the final
score clamped at 1. -/
def similarityInfo (oracle : SearchOracle) (query : String)
    (queryEmbedding : Option (List ℚ)) (chunk : ChunkRow) : Info :=
  let vectorSimilarity :=
    match queryEmbedding with
    | some qe => oracle.similarity qe chunk.embedding
    | none => 0
  let boostAfterIntent : ℚ :=
    match chunk.pampa_intent with
    | some intent =>
      if strContains ⟨query.data.map Char.toLower⟩ ⟨intent.data.map Char.toLower⟩
        then (0 : ℚ) + 0.2 else 0
    | none => 0
  let boostScore := chunk.pampa_tags.foldl
    (fun acc tag =>
      if strContains ⟨query.data.map Char.toLower⟩ ⟨tag.data.map Char.toLower⟩
        then acc + 0.1 else acc)
    boostAfterIntent
  { row := chunk, score := min (vectorSimilarity + boostScore) 1
    vectorScore := vectorSimilarity, boostScore := boostScore }

/-- The hybrid/BM25 block of the candidate-selection phase: when hybrid
and bm25 are enabled and a BM25 index exists, the BM25 retrieval scoped
to the allowed ids with intention hits excluded, reciprocal rank fusion
against the vector pool, and the map back through the info table; any
empty intermediate yields the pass-through pair. -/
def bmStageOf (oracle : SearchOracle) (query : String) (scope : ScopeOptions)
    (results vectorPool : List Info) (scopedChunks : List ChunkRow)
    (intentionChunkIds : List String) (selectionBudget : Nat) :
    List Info × Bool :=
  match scope.hybrid, scope.bm25, oracle.bm25Index with
  | true, true, some bmSearch =>
    let allowedIds := scopedChunks.map (·.id)
    let bm25Results := (bmSearch query selectionBudget).filter fun r =>
      r.1 ∈ allowedIds ∧ ¬ r.1 ∈ intentionChunkIds
    if bm25Results.isEmpty then ([], false)
    else
      let fused := oracle.rrf
        (vectorPool.map fun i => (i.row.id, i.score))
        bm25Results selectionBudget
      if fused.isEmpty then ([], false)
      else
        let chunkInfoById := results.map fun i => (i.row.id, i)
        (fused.filterMap fun e =>
          (alookup e.id chunkInfoById).map fun i =>
            { i with hybridScore := some e.score
                     bm25Score := e.bm25Score
                     bm25Rank := e.bm25Rank
                     vectorRank := e.vectorRank }, true)
  | _, _, _ => ([], false)

/-- The candidate-selection block guarded by remainingSlots > 0: the
selection budget, the vector pool, the hybrid/BM25 stage with the
fallback to the vector pool, the symbol-boost re-sort, the slice to
remainingSlots, and the rerank phase.  Returns the final vector results
and the bm25Fused flag. -/
def vectorStage (cfg : SearchConfig) (oracle : SearchOracle) (query : String)
    (scope : ScopeOptions) (results filteredResults : List Info)
    (scopedChunks : List ChunkRow) (intentionChunkIds : List String)
    (remainingSlots : Nat) : List Info × Bool :=
  if remainingSlots = 0 then ([], false)
  else
    let selectionBudget := max remainingSlots 60
    let vectorPool := filteredResults.take selectionBudget
    let bmStage := bmStageOf oracle query scope results vectorPool
      scopedChunks intentionChunkIds selectionBudget
    let vectorResults := if bmStage.1.isEmpty then vectorPool else bmStage.1
    let hasSymbolBoost : Bool := scope.symbol_boost &&
      vectorResults.any fun c =>
        match c.symbolBoost with
        | some b => decide (0 < b)
        | none => false
    let vectorResults :=
      if hasSymbolBoost = true ∧ 1 < vectorResults.length then
        vectorResults.insertionSort tripleKeyRel
      else vectorResults
    let vectorResults := vectorResults.take remainingSlots
    (rerankPhase cfg oracle scope.reranker vectorResults, bmStage.2)

/-- The intention-phase result items of searchCode: the direct-match
formatted result when a cached intention resolved and its chunk body is
on disk. -/
def intentionResultsOf (db : SearchDb) (im : Option IntentionMatch) :
    List ResultItem :=
  match im with
  | some m =>
    match getChunk db m.sha with
    | some code =>
      [{ type := "code", lang := m.lang, path := m.filePath, sha := m.sha
         data := some code
         meta := { symbol := m.symbol, score := m.confidence
                   searchType := some "intention" } }]
    | none => []
  | none => []

/-- The composition step of searchCode: the formatted vector results
appended after the intention results, with the structured
no_relevant_matches error when the combination is empty. -/
def composeResults (scopedIntentionResults : List ResultItem)
    (vectorResults : List Info) (vectorSearchType : String) : SearchOutput :=
  let combinedResults := scopedIntentionResults ++
    vectorResults.map fun r =>
      { type := "code", lang := r.row.lang, path := r.row.file_path
        sha := r.row.sha, data := none
        meta := { id := some r.row.id, symbol := r.row.symbol
                  score := min 1 r.score
                  searchType := some vectorSearchType
                  rerankerScore := r.rerankerScore
                  rerankerRank := r.rerankerRank } }
  if combinedResults.isEmpty then
    { success := false, error := some "no_relevant_matches", results := [] }
  else { success := true, error := none, results := combinedResults }

/-- searchCode: the full request pipeline.  A blank query is answered
by getOverview; otherwise intention lookup, the provider/dimension
filtered candidate read, scope filtering, the similarity loop, symbol
boost, the candidate-selection block and composition, with the early
structured error returns of the source. -/
def searchCode (cfg : SearchConfig) (oracle : SearchOracle) (db : SearchDb)
    (query : String) (limit : Nat) (scope : ScopeOptions) : SearchOutput :=
  if jsTrim query = "" then getOverview db limit
  else
    let intentionMatch :=
      if scope.symbol_boost then searchByIntention db query else none
    let intentionResults := intentionResultsOf db intentionMatch
    if db.dbExists = false then
      { success := false, error := some "database_not_found", results := [] }
    else
      let chunks := db.rows.filter fun c =>
        c.embedding_provider = cfg.provider ∧
          c.embedding_dimensions = cfg.dimensions
      if chunks.isEmpty then
        { success := false, error := some "no_chunks_found", results := [] }
      else
        let scopedChunks := applyScope oracle.globMatch chunks scope
        let scopedShaSet := scopedChunks.map (·.sha)
        let scopedIntentionResults :=
          if hasScopeFilters scope then
            intentionResults.filter fun r => r.sha ∈ scopedShaSet
          else intentionResults
        let queryEmbedding : Option (List ℚ) :=
          if scopedChunks.isEmpty then none else some (oracle.embedQuery query)
        let results := scopedChunks.map (similarityInfo oracle query queryEmbedding)
        let results :=
          if scope.symbol_boost then results.map (applySymbolBoostEntry oracle query)
          else results
        let sortedResults := results.insertionSort scoreDescRel
        let intentionChunkIds := scopedIntentionResults.filterMap fun r =>
          (scopedChunks.find? fun c => c.sha = r.sha).map (·.id)
        let filteredResults :=
          sortedResults.filter fun r => ¬ r.row.id ∈ intentionChunkIds
        let remainingSlots := limit - scopedIntentionResults.length
        let stage := vectorStage cfg oracle query scope results filteredResults
          scopedChunks intentionChunkIds remainingSlots
        let vectorResults := stage.1
        let bm25Fused := stage.2
        let vectorSearchType := if bm25Fused then "hybrid" else "vector"
        composeResults scopedIntentionResults vectorResults vectorSearchType

/-! ## Concrete instances used to evaluate the model -/

/-- A minimal oracle: zero similarity, no BM25 index, no fusion output,
no reranker model, no symbol boost adjustment. -/
def trivialOracle : SearchOracle where
  embedQuery := fun _ => [1, 0]
  similarity := fun _ _ => 0
  globMatch := fun _ _ => false
  symbolBoostOf := fun _ i => (i.score, none, [])
  bm25Index := none
  rrf := fun _ _ _ => []
  rerankScoreOf := none

/-- The oracle with an available cross-encoder scoring documents by
their current score. -/
def scoredOracle : SearchOracle :=
  { trivialOracle with rerankScoreOf := some fun i => i.score }

/-- A chunk row embedded under openai with 2 dimensions. -/
def rowAlpha : ChunkRow where
  id := "src/app.js:alpha:aaaa1111"
  file_path := "src/app.js"
  symbol := "alpha"
  sha := "aaa"
  lang := "javascript"
  chunk_type := "function"
  embedding := [1, 0]
  pampa_tags := []
  pampa_intent := none
  pampa_description := none
  embedding_provider := "openai"
  embedding_dimensions := 2

/-- A chunk row embedded under cohere with 3 dimensions. -/
def rowBeta : ChunkRow where
  id := "src/pay.py:beta:bbbb2222"
  file_path := "src/pay.py"
  symbol := "beta"
  sha := "bbb"
  lang := "python"
  chunk_type := "function"
  embedding := [1, 0, 0]
  pampa_tags := []
  pampa_intent := none
  pampa_description := none
  embedding_provider := "cohere"
  embedding_dimensions := 3

/-- Scope options with no filters and every feature at its default. -/
def scopeDefault : ScopeOptions where
  path_glob := []
  tags := []
  lang := []

/-- A search configured for openai embeddings with 2 dimensions. -/
def cfgOpenai : SearchConfig where
  provider := "openai"
  dimensions := 2

/-- A database holding one openai chunk, one cohere chunk, and a cached
intention pointing at the cohere chunk. -/
def dbMixed : SearchDb where
  dbExists := true
  rows := [rowAlpha, rowBeta]
  intentions := [{ query_normalized := "payments", original_query := "payments"
                   target_sha := "bbb", confidence := 1/2, usage_count := 1 }]
  chunkStore := [("bbb", "def beta(): pass")]

/-- A database with two rows listed against the overview order and
nothing else. -/
def dbTwoRows : SearchDb where
  dbExists := true
  rows := [rowBeta, rowAlpha]
  intentions := []
  chunkStore := []

/-- Candidate number n for the rerank-phase evaluation. -/
def rerankInfo (n : Nat) : Info where
  row := { rowAlpha with id := "id" ++ toString n, sha := "sha" ++ toString n }
  score := 0
  vectorScore := 0
  boostScore := 0

/-- Fifty-one candidates entering the rerank phase. -/
def rerankInfos51 : List Info :=
  (List.range 51).map rerankInfo

/-- Two candidates entering the rerank phase. -/
def rerankInfos2 : List Info :=
  (List.range 2).map rerankInfo

/-- A placeholder result used as the default of list indexing in
closed statements. -/
def dummyItem : ResultItem where
  type := ""
  lang := ""
  path := ""
  sha := ""
  data := none
  meta := { symbol := "", score := 0 }

/-- Character-limit profile (no token counter): sizes are character
counts against min 50 / optimal 100 / max 200. -/
def profChars : ModelProfile where
  useTokens := false
  tokenCounter := none
  optimalTokens := 0
  minChunkTokens := 0
  maxChunkTokens := 0
  overlapTokens := 0
  optimalChars := 100
  minChunkChars := 50
  maxChunkChars := 200
  overlapChars := 10

/-- Token profile whose counter is the character count, with limits
min 2 / optimal 4 / max 5. -/
def profTok : ModelProfile where
  useTokens := true
  tokenCounter := some fun s => s.length
  optimalTokens := 4
  minChunkTokens := 2
  maxChunkTokens := 5
  overlapTokens := 0
  optimalChars := 100
  minChunkChars := 50
  maxChunkChars := 200
  overlapChars := 10

/-- A class rule subdividing class declarations into method
definitions. -/
def ruleClass : LangRule where
  lang := "javascript"
  nodeTypes := ["class_declaration"]
  subdivisionTypes := fun t =>
    if t = "class_declaration" then ["method_definition"] else []

/-- A 300-character class node (above the 200-character max of
profChars) with three thirty-character methods (below the minimum
50). -/
def classNode : TSNode :=
  .mk "class_declaration" 0 300 (some "Klass")
    [.mk "method_definition" 10 40 (some "m1") [],
     .mk "method_definition" 50 80 (some "m2") [],
     .mk "method_definition" 90 120 (some "m3") []]

/-- A four-character function node. -/
def fnNode : TSNode := .mk "function_declaration" 0 4 (some "f") []

/-- Three hundred characters of source for the class node. -/
def classSource : String := ⟨List.replicate 300 'x'⟩

/-- The subdivision candidates of the class node. -/
def candsClass : List TSNode :=
  (analyzeNodeForChunking classNode classSource ruleClass profChars).subdivisionCandidates

/-- The too-small candidates among them. -/
def smallsClass : List TSNode :=
  candsClass.filter fun c =>
    (analyzeNodeForChunking c classSource ruleClass profChars).size
      < (getSizeLimits profChars).min

/-- The first small candidate. -/
def firstSmall : TSNode := .mk "method_definition" 10 40 (some "m1") []

/-- A forty-character snippet. -/
def code40 : String := "0123456789012345678901234567890123456789"

/-- Indexing environment with injective stand-in hashes and a chunker
emitting one chunk per file. -/
def envSimple : IndexEnv where
  fastHash := fun s => "h" ++ s
  sha1 := fun s => "s" ++ s
  chunker := fun _ source => some [("f", source)]

/-- A one-file repository. -/
def filesOne : List (String × String) := [("a.js", "function f()")]

/-- The empty persisted state. -/
def stEmpty : IndexState where
  merkle := []
  codemap := []

/-- A rate-limited error carrying the 429 status. -/
def err429 : JsError := ⟨429, "Too Many"⟩

/-- An error whose message contains 429 but matches neither
"rate limit" nor "too many requests" and has no status. -/
def errMsg429 : JsError := ⟨0, "HTTP 429"⟩

/-- An ordinary failure. -/
def errPlain : JsError := ⟨500, "boom"⟩

/-- A string of exactly SIZE_THRESHOLD characters. -/
def srcAtThreshold : String := ⟨List.replicate 30000 'a'⟩

/-- A string one character over the threshold. -/
def srcOverThreshold : String := ⟨List.replicate 30001 'a'⟩

/-! ## Helper lemmas -/

theorem alookup_eq_some_mem {α : Type} {k : String} {v : α} :
    ∀ {l : List (String × α)}, alookup k l = some v → (k, v) ∈ l := by
  intro l
  induction l with
  | nil => intro h; simp [alookup] at h
  | cons p rest ih =>
    obtain ⟨k1, v1⟩ := p
    intro h
    by_cases hk : k = k1
    · simp only [alookup] at h
      rw [if_pos hk] at h
      cases h
      rw [hk]
      exact List.mem_cons_self _ _
    · refine List.mem_cons_of_mem _ (ih ?_)
      simpa [alookup, hk] using h

theorem mem_insertionSort {α : Type} {r : α → α → Prop} [DecidableRel r]
    {l : List α} {a : α} (h : a ∈ l.insertionSort r) : a ∈ l :=
  (List.perm_insertionSort r l).mem_iff.mp h

theorem snd_mem_of_mem_enumFrom {α : Type} {p : Nat × α} :
    ∀ {l : List α} {n : Nat}, p ∈ l.enumFrom n → p.2 ∈ l := by
  intro l
  induction l with
  | nil => intro n h; simp [List.enumFrom] at h
  | cons x rest ih =>
    intro n h
    rcases List.mem_cons.mp h with h | h
    · rw [h]
      exact List.mem_cons_self _ _
    · exact List.mem_cons_of_mem x (ih h)

theorem snd_mem_of_mem_enum {α : Type} {p : Nat × α} {l : List α}
    (h : p ∈ l.enum) : p.2 ∈ l :=
  snd_mem_of_mem_enumFrom h

/-! ## C10 — cosineSimilarity is total on mismatched lengths -/

/-- C10: for every pair of input vectors of different lengths the
exported cosineSimilarity returns 0 (the guard fires before any element
is read), so comparing embeddings of mismatched dimensions is total and
yields zero similarity. -/
theorem C10_cosine_mismatched_lengths (a b : List Float)
    (h : a.length ≠ b.length) : cosineSimilarity a b = 0 := by
  unfold cosineSimilarity
  rw [if_pos h]

/-- Witness for C10 at the concrete vectors [1, 2] and [1]. -/
theorem C10_cosine_mismatched_lengths_w :
    ([1, 2] : List Float).length ≠ ([1] : List Float).length ∧
      cosineSimilarity [1, 2] [1] = 0 :=
  ⟨by decide, C10_cosine_mismatched_lengths [1, 2] [1] (by decide)⟩

/-! ## C8 — streaming threshold -/

theorem srcAtThreshold_length : srcAtThreshold.length = 30000 := by
  rw [show srcAtThreshold.length = (List.replicate 30000 'a').length from rfl]
  exact List.length_replicate 30000 'a'

theorem srcOverThreshold_length : srcOverThreshold.length = 30001 := by
  rw [show srcOverThreshold.length = (List.replicate 30001 'a').length from rfl]
  exact List.length_replicate 30001 'a'

/-- C8 counterexample: a file of exactly 30000 characters — at the
threshold, where the claim asserts the streaming path — is fed to the
parser as one whole buffer, because the source guard is the strict
source.length > SIZE_THRESHOLD. -/
theorem C8_counterexample :
    srcAtThreshold.length = 30000 ∧
      (parserFeedFor srcAtThreshold).isStreaming = false := by
  refine ⟨srcAtThreshold_length, ?_⟩
  unfold parserFeedFor
  rw [if_neg]
  · rfl
  · rw [srcAtThreshold_length]
    decide

/-- C8 (amended): a file of length at most 30000 is parsed as one whole
buffer and a file strictly larger than 30000 through the streaming
callback, which inside the source returns the 30 KB slice at the given
byte offset (of length min(30000, remaining)) and null beyond the
end. -/
theorem C8_amended_streaming_threshold (s : String) :
    ((parserFeedFor s).isStreaming = true ↔ SIZE_THRESHOLD < s.length) ∧
    (SIZE_THRESHOLD < s.length →
      parserFeedFor s = ParserFeed.streaming (streamCallback s)) ∧
    (∀ i, i < s.length →
      streamCallback s i
          = some (strSlice s i (min (i + CHUNK_SIZE) s.length)) ∧
        (strSlice s i (min (i + CHUNK_SIZE) s.length)).length
          = min CHUNK_SIZE (s.length - i)) ∧
    (∀ i, s.length ≤ i → streamCallback s i = none) := by
  refine ⟨?_, ?_, ?_, ?_⟩
  · constructor
    · intro h
      by_contra hlt
      unfold parserFeedFor at h
      rw [if_neg (by omega)] at h
      simp [ParserFeed.isStreaming] at h
    · intro h
      unfold parserFeedFor
      rw [if_pos h]
      rfl
  · intro h
    unfold parserFeedFor
    rw [if_pos h]
  · intro i hi
    refine ⟨by unfold streamCallback; rw [if_pos hi], ?_⟩
    have h1 : (strSlice s i (min (i + CHUNK_SIZE) s.length)).length
        = ((s.data.drop i).take (min (i + CHUNK_SIZE) s.length - i)).length := rfl
    have h2 : s.length = s.data.length := rfl
    rw [h1, List.length_take, List.length_drop]
    rw [h2] at hi ⊢
    unfold CHUNK_SIZE
    omega
  · intro i hi
    unfold streamCallback
    rw [if_neg (by omega)]

/-- Witness for C8 (amended) at a 30001-character source and offset 0. -/
theorem C8_amended_streaming_threshold_w :
    (parserFeedFor srcOverThreshold).isStreaming = true ∧
      (strSlice srcOverThreshold 0 (min (0 + CHUNK_SIZE) srcOverThreshold.length)).length
        = min CHUNK_SIZE (srcOverThreshold.length - 0) := by
  have h := C8_amended_streaming_threshold srcOverThreshold
  have hlen : SIZE_THRESHOLD < srcOverThreshold.length := by
    rw [srcOverThreshold_length]; decide
  have hi : 0 < srcOverThreshold.length := by
    rw [srcOverThreshold_length]; decide
  exact ⟨h.1.mpr hlen, (h.2.2.1 0 hi).2⟩

/-! ## C7 — rate limiter retry schedule -/

/-- C7 counterexample: the error with message "HTTP 429" and no status
is not 429-classified in the sense of the claim (status 429 or message
matching "rate limit" / "too many requests"), yet execute retries it
through the whole backoff schedule instead of rejecting immediately,
because isRateLimitError also matches any message containing "429". -/
theorem C7_counterexample :
    claimRateLimitClass errMsg429 = false ∧
      isRateLimitError errMsg429 = true ∧
      rateLimiterExecute (fun _ => (.error errMsg429 : Except JsError Unit))
        ≠ (.rejected errMsg429, []) ∧
      rateLimiterExecute (fun _ => (.error errMsg429 : Except JsError Unit))
        = (.exhausted "Rate limit exceeded after 4 retries: HTTP 429",
            [1000, 2000, 5000, 10000]) := by
  refine ⟨by decide, by decide, ?_, ?_⟩ <;> decide

theorem executeAttempts_all429 {α : Type} (fn : Nat → Except JsError α)
    (es : Nat → JsError) (h1 : ∀ i, fn i = .error (es i))
    (h2 : ∀ i, isRateLimitError (es i) = true) :
    ∀ rl attempt, executeAttempts fn attempt rl =
      (.exhausted ("Rate limit exceeded after " ++ toString retryDelays.length
          ++ " retries: " ++ (es (attempt + rl)).message),
        (List.range rl).map fun j =>
          retryDelays.getD (retryDelays.length - (rl - j)) 0) := by
  intro rl
  induction rl with
  | zero =>
    intro attempt
    simp [executeAttempts, h1 attempt, h2 attempt]
  | succ rl ih =>
    intro attempt
    simp only [executeAttempts, h1 attempt, h2 attempt, if_true, ih (attempt + 1)]
    rw [show attempt + 1 + rl = attempt + (rl + 1) by omega]
    rw [List.range_succ_eq_map, List.map_cons, List.map_map]
    simp [Function.comp, Nat.succ_sub_succ]

/-- C7 (amended): execute retries a function whose failures are
429-classified in the sense of the source (status 429, or a message
containing "429", "rate limit" or "too many requests") with delays of
1s, 2s, 5s and 10s, and after the fourth failed retry rejects with the
rate-limit-exhausted error; a first failure that is not 429-classified
in that sense is rejected immediately with no retry delay. -/
theorem C7_amended_retry_schedule (α : Type) :
    (∀ (fn : Nat → Except JsError α) (e : JsError), fn 0 = .error e →
      isRateLimitError e = false → rateLimiterExecute fn = (.rejected e, [])) ∧
    (∀ (fn : Nat → Except JsError α) (es : Nat → JsError),
      (∀ i, fn i = .error (es i)) → (∀ i, isRateLimitError (es i) = true) →
      ∃ msg, rateLimiterExecute fn
        = (.exhausted msg, [1000, 2000, 5000, 10000])) := by
  constructor
  · intro fn e h1 h2
    simp [rateLimiterExecute, retryDelays, executeAttempts, h1, h2]
  · intro fn es h1 h2
    refine ⟨"Rate limit exceeded after " ++ toString retryDelays.length
      ++ " retries: " ++ (es (0 + retryDelays.length)).message, ?_⟩
    rw [rateLimiterExecute, executeAttempts_all429 fn es h1 h2]
    rfl

/-- Witness for C7 (amended): an ordinary 500 error is rejected with no
delay; a persistent status-429 failure exhausts the schedule. -/
theorem C7_amended_retry_schedule_w :
    rateLimiterExecute (fun _ => (.error errPlain : Except JsError Unit))
        = (.rejected errPlain, []) ∧
      ∃ msg, rateLimiterExecute (fun _ => (.error err429 : Except JsError Unit))
        = (.exhausted msg, [1000, 2000, 5000, 10000]) :=
  ⟨(C7_amended_retry_schedule Unit).1 _ errPlain rfl (by decide),
    (C7_amended_retry_schedule Unit).2 _ (fun _ => err429) (fun _ => rfl)
      (fun _ => show isRateLimitError err429 = true by decide)⟩

/-! ## C6 — no skip decision from a character estimate -/

/-- C6: analyzeCodeSize returns a char_estimate result only when
allow_estimate_for_skip is true and the character pre-filter decision
is too_large; and the indexing path that decides whether a chunk is too
small (analyzeNodeForChunking) calls it with the default
allow_estimate_for_skip = false, so in token mode its classification is
always produced by actual tokenization: method is tokenized and the
size is the token counter applied to the sliced code. -/
theorem C6_no_estimate_skip :
    (∀ code limits tc allow,
      (analyzeCodeSize code limits tc allow).method = SizeMethod.char_estimate →
        allow = true ∧
          (preFilterByChars code.length limits).decision = PreDecision.too_large) ∧
    (∀ node source rule profile tc, profile.useTokens = true →
      profile.tokenCounter = some tc →
        (analyzeNodeForChunking node source rule profile).method
            = SizeMethod.tokenized ∧
          (analyzeNodeForChunking node source rule profile).size
            = tc (sliceNode source node)) := by
  constructor
  · intro code limits tc allow h
    by_cases hc : allow = true ∧
        (preFilterByChars code.length limits).decision = PreDecision.too_large
    · exact hc
    · exfalso
      unfold analyzeCodeSize at h
      rw [if_neg hc] at h
      simp at h
  · intro node source rule profile tc hu ht
    constructor <;>
      simp [analyzeNodeForChunking, hu, ht, analyzeCodeSize]

/-- Witness for C6 at a forty-character snippet with token limits
2/4/5 (pre-filter too_large, estimate allowed) and at a small function
node under the token profile. -/
theorem C6_no_estimate_skip_w :
    (true = true ∧
      (preFilterByChars code40.length ⟨2, 4, 5, 0, "tokens"⟩).decision
        = PreDecision.too_large) ∧
    ((analyzeNodeForChunking fnNode "abcd" ruleClass profTok).method
        = SizeMethod.tokenized ∧
      (analyzeNodeForChunking fnNode "abcd" ruleClass profTok).size
        = (fun s => s.length) (sliceNode "abcd" fnNode)) :=
  ⟨C6_no_estimate_skip.1 code40 ⟨2, 4, 5, 0, "tokens"⟩ (fun s => s.length)
      true (by decide),
    C6_no_estimate_skip.2 fnNode "abcd" ruleClass profTok (fun s => s.length)
      rfl rfl⟩

/-! ## C2 — embedding serialization -/

theorem natDigitsAux_eq (fuel : Nat) :
    ∀ n, n ≤ fuel → natDigitsAux fuel n = Nat.digits 10 n := by
  induction fuel with
  | zero =>
    intro n hn
    interval_cases n
    simp [natDigitsAux]
  | succ fuel ih =>
    intro n hn
    match n with
    | 0 => simp [natDigitsAux]
    | m + 1 =>
      show ((m + 1) % 10) :: natDigitsAux fuel ((m + 1) / 10) = _
      have hdiv : (m + 1) / 10 < m + 1 :=
        Nat.div_lt_self (Nat.succ_pos m) (by norm_num)
      rw [ih ((m + 1) / 10) (by omega)]
      rw [Nat.digits_def' (by norm_num : 1 < 10) (Nat.succ_pos m)]

theorem natDigits_eq (n : Nat) : natDigits n = Nat.digits 10 n :=
  natDigitsAux_eq n n le_rfl

theorem map_toNat_ofNat (cs : List Char) :
    (cs.map Char.toNat).map Char.ofNat = cs := by
  rw [List.map_map]
  have : Char.ofNat ∘ Char.toNat = id := by
    funext c
    exact Char.ofNat_toNat c
  rw [this, List.map_id]

theorem charDigit?_natDigitChar {d : Nat} (hd : d < 10) :
    charDigit? (natDigitChar d) = some d := by
  interval_cases d <;> decide

theorem natDigitChar_ne_comma {d : Nat} (hd : d < 10) : natDigitChar d ≠ ',' := by
  interval_cases d <;> decide

theorem natDigitChar_ne_minus {d : Nat} (hd : d < 10) : natDigitChar d ≠ '-' := by
  interval_cases d <;> decide

theorem renderNat_ne_nil (n : Nat) : renderNat n ≠ [] := by
  unfold renderNat
  split
  · simp
  · simp_all [natDigits_eq, Nat.digits_ne_nil_iff_ne_zero]

theorem mem_renderNat {c : Char} {n : Nat} (h : c ∈ renderNat n) :
    ∃ d, d < 10 ∧ c = natDigitChar d := by
  unfold renderNat at h
  split at h
  · refine ⟨0, by norm_num, ?_⟩
    simpa using h
  · rw [List.mem_reverse] at h
    rcases List.mem_map.mp h with ⟨d, hd, rfl⟩
    rw [natDigits_eq] at hd
    exact ⟨d, Nat.digits_lt_base (by norm_num) hd, rfl⟩

theorem renderInt_ne_nil (i : Int) : renderInt i ≠ [] := by
  cases i with
  | ofNat n => exact renderNat_ne_nil n
  | negSucc m => simp [renderInt]

theorem comma_not_mem_renderInt (i : Int) : ',' ∉ renderInt i := by
  cases i with
  | ofNat n =>
    intro h
    rcases mem_renderNat h with ⟨d, hd, hc⟩
    exact natDigitChar_ne_comma hd hc.symm
  | negSucc m =>
    intro h
    rcases List.mem_cons.mp h with h | h
    · exact absurd h (by decide)
    · rcases mem_renderNat h with ⟨d, hd, hc⟩
      exact natDigitChar_ne_comma hd hc.symm

theorem mapM_charDigit_digits (l : List Nat) (hl : ∀ d ∈ l, d < 10) :
    (l.map natDigitChar).mapM charDigit? = some l := by
  induction l with
  | nil => rfl
  | cons d rest ih =>
    rw [List.map_cons, List.mapM_cons,
      charDigit?_natDigitChar (hl d (List.mem_cons_self d rest)),
      ih fun x hx => hl x (List.mem_cons_of_mem d hx)]
    rfl

theorem parseNat_renderNat (n : Nat) : parseNatChars (renderNat n) = some n := by
  unfold renderNat
  by_cases h : n = 0
  · rw [if_pos h, h]
    decide
  · rw [if_neg h]
    unfold parseNatChars
    rw [← List.map_reverse, mapM_charDigit_digits _
      (fun d hd => by
        have hd2 := List.mem_reverse.mp hd
        rw [natDigits_eq] at hd2
        exact Nat.digits_lt_base (by norm_num) hd2)]
    show (if (natDigits n).reverse = [] then none
      else some (Nat.ofDigits 10 (natDigits n).reverse.reverse)) = some n
    rw [if_neg (by simp [natDigits_eq, Nat.digits_ne_nil_iff_ne_zero, h])]
    rw [List.reverse_reverse, natDigits_eq, Nat.ofDigits_digits]

theorem parseIntChars_cons (c : Char) (rest : List Char) :
    parseIntChars (c :: rest)
      = if c = '-' then (parseNatChars rest).map (fun n => -(n : Int))
        else (parseNatChars (c :: rest)).map (fun n => (n : Int)) := rfl

theorem parseInt_renderInt (i : Int) : parseIntChars (renderInt i) = some i := by
  cases i with
  | ofNat n =>
    show parseIntChars (renderNat n) = some (Int.ofNat n)
    obtain ⟨c, t, hct⟩ := List.exists_cons_of_ne_nil (renderNat_ne_nil n)
    have hc : ¬ c = '-' := by
      have hmem : c ∈ renderNat n := by
        rw [hct]; exact List.mem_cons_self c t
      rcases mem_renderNat hmem with ⟨d, hd, rfl⟩
      exact natDigitChar_ne_minus hd
    rw [hct, parseIntChars_cons, if_neg hc, ← hct, parseNat_renderNat]
    rfl
  | negSucc m =>
    show parseIntChars ('-' :: renderNat (m + 1)) = some (Int.negSucc m)
    rw [parseIntChars_cons, if_pos rfl, parseNat_renderNat]
    simp [Int.negSucc_eq]

theorem mapM_parse_render (v : List Int) :
    (v.map renderInt).mapM parseIntChars = some v := by
  induction v with
  | nil => rfl
  | cons x xs ih =>
    rw [List.map_cons, List.mapM_cons, parseInt_renderInt, ih]
    rfl

theorem splitCommaAux_nil (acc : List Char) :
    splitCommaAux acc [] = [acc.reverse] := rfl

theorem splitCommaAux_cons (acc : List Char) (c : Char) (rest : List Char) :
    splitCommaAux acc (c :: rest)
      = if c = ',' then acc.reverse :: splitCommaAux [] rest
        else splitCommaAux (c :: acc) rest := rfl

theorem splitCommaAux_no_comma :
    ∀ (p acc : List Char), ',' ∉ p → splitCommaAux acc p = [acc.reverse ++ p] := by
  intro p
  induction p with
  | nil => intro acc _; rw [splitCommaAux_nil, List.append_nil]
  | cons c rest ih =>
    intro acc h
    rw [splitCommaAux_cons,
      if_neg (fun hc => h (by rw [hc]; exact List.mem_cons_self _ _)),
      ih (c :: acc) fun hm => h (List.mem_cons_of_mem c hm)]
    simp

theorem splitCommaAux_comma_split :
    ∀ (p acc rest : List Char), ',' ∉ p →
      splitCommaAux acc (p ++ ',' :: rest)
        = (acc.reverse ++ p) :: splitCommaAux [] rest := by
  intro p
  induction p with
  | nil =>
    intro acc rest _
    rw [List.nil_append, splitCommaAux_cons, if_pos rfl, List.append_nil]
  | cons c tail ih =>
    intro acc rest h
    rw [List.cons_append, splitCommaAux_cons,
      if_neg (fun hc => h (by rw [hc]; exact List.mem_cons_self _ _)),
      ih (c :: acc) rest fun hm => h (List.mem_cons_of_mem c hm)]
    simp

theorem splitComma_joinComma :
    ∀ parts : List (List Char), parts ≠ [] → (∀ p ∈ parts, ',' ∉ p) →
      splitComma (joinComma parts) = parts := by
  intro parts
  induction parts with
  | nil => intro h; exact absurd rfl h
  | cons p rest ih =>
    intro _ hcf
    cases rest with
    | nil =>
      show splitComma (joinComma [p]) = [p]
      rw [show joinComma [p] = p from rfl]
      unfold splitComma
      rw [splitCommaAux_no_comma p [] (hcf p (List.mem_cons_self p []))]
      simp
    | cons q rest2 =>
      show splitComma (joinComma (p :: q :: rest2)) = p :: q :: rest2
      rw [show joinComma (p :: q :: rest2) = p ++ ',' :: joinComma (q :: rest2)
        from rfl]
      unfold splitComma
      rw [splitCommaAux_comma_split p [] _ (hcf p (List.mem_cons_self p _))]
      rw [show splitCommaAux [] (joinComma (q :: rest2))
          = splitComma (joinComma (q :: rest2)) from rfl]
      rw [ih (List.cons_ne_nil q rest2)
        fun x hx => hcf x (List.mem_cons_of_mem p hx)]
      simp

theorem joinComma_ne_nil (p : List Char) (rest : List (List Char))
    (hp : p ≠ []) : joinComma (p :: rest) ≠ [] := by
  cases rest with
  | nil => exact hp
  | cons q rest2 => simp [joinComma]

theorem parseJson_wrap (body : List Char) (hb : body ≠ []) :
    parseJsonChars ('[' :: (body ++ [']']))
      = (splitComma body).mapM parseIntChars := by
  show (if ('[' : Char) = '[' then
      match (body ++ [']']).getLast? with
      | some d =>
        if d = ']' then
          if (body ++ [']']).dropLast = [] then some []
          else (splitComma ((body ++ [']']).dropLast)).mapM parseIntChars
        else none
      | none => none
    else none) = _
  rw [if_pos rfl, List.getLast?_concat]
  show (if (']' : Char) = ']' then
      if (body ++ [']']).dropLast = [] then some []
      else (splitComma ((body ++ [']']).dropLast)).mapM parseIntChars
    else none) = _
  rw [if_pos rfl, List.dropLast_concat, if_neg hb]

/-- C2 counterexample: for the one-element vector [1] the stored column
is the three UTF-8 bytes of the JSON text (open bracket, the digit one,
close bracket), which differs from the length-prefixed little-endian
f32 blob the claim describes (eight bytes: the u32 length 1 followed by
the four little-endian bytes of 1.0f). -/
theorem C2_counterexample :
    embeddingBlob [1] = [91, 49, 93] ∧
      specEncodeEmbedding [1] = [1, 0, 0, 0, 0, 0, 128, 63] ∧
      embeddingBlob [1] ≠ specEncodeEmbedding [1] := by
  refine ⟨by decide, by decide, by decide⟩

/-- C2 (amended): chunk embedding vectors are persisted in the
code_chunks.embedding column as a Buffer holding the JSON serialization
of the vector (Buffer.from(JSON.stringify(embedding))), and the
retrieval engine decodes that JSON text back into the numeric vector
(JSON.parse) before computing cosine similarity: decoding inverts the
stored encoding. -/
theorem C2_amended_json_roundtrip (v : List Int) :
    parseEmbeddingBlob (embeddingBlob v) = some v := by
  unfold embeddingBlob parseEmbeddingBlob
  rw [map_toNat_ofNat]
  rw [show jsonArrayChars v = '[' :: (joinComma (v.map renderInt) ++ [']'])
    from rfl]
  cases v with
  | nil => decide
  | cons x xs =>
    rw [parseJson_wrap _ (by
      rw [List.map_cons]
      exact joinComma_ne_nil _ _ (renderInt_ne_nil x))]
    rw [splitComma_joinComma _ (by simp) (by
      intro p hp
      rcases List.mem_map.mp hp with ⟨i, _, rfl⟩
      exact comma_not_mem_renderInt i)]
    exact mapM_parse_render (x :: xs)

/-! ## C5 — collection and merge of small subdivision candidates -/

theorem getLastD_map {α β : Type} (f : α → β) :
    ∀ (l : List α) (a : α), (l.map f).getLastD (f a) = f (l.getLastD a) := by
  intro l
  induction l with
  | nil => intro a; rfl
  | cons x xs ih =>
    intro a
    rw [List.map_cons, List.getLastD_cons, List.getLastD_cons]
    exact ih x

theorem subdivisionLoop_fold (source : String) (rule : LangRule)
    (profile : ModelProfile) (limits : SizeLimits) :
    ∀ (cands : List TSNode) (ev : List ChunkEvent) (sm : List SmallChunk),
      cands.foldl
        (fun acc subNode =>
          let subAnalysis := analyzeNodeForChunking subNode source rule profile
          if subAnalysis.size < limits.min then
            (acc.1, acc.2 ++ [⟨subNode, sliceNode source subNode, subAnalysis.size⟩])
          else
            (acc.1 ++ [.recurse subNode], acc.2))
        (ev, sm)
      = (ev ++ (cands.filter fun c =>
            ¬ (analyzeNodeForChunking c source rule profile).size < limits.min).map
          ChunkEvent.recurse,
         sm ++ (cands.filter fun c =>
            (analyzeNodeForChunking c source rule profile).size < limits.min).map
          fun c =>
            ⟨c, sliceNode source c, (analyzeNodeForChunking c source rule profile).size⟩) := by
  intro cands
  induction cands with
  | nil => intro ev sm; simp
  | cons c rest ih =>
    intro ev sm
    rw [List.foldl_cons]
    by_cases hc : (analyzeNodeForChunking c source rule profile).size < limits.min
    · simp only [if_pos hc, ih]
      simp [List.filter_cons, hc]
    · simp only [if_neg hc, ih]
      simp [List.filter_cons, hc, Nat.not_lt.mp hc]

theorem subdivisionLoop_eq (source : String) (rule : LangRule)
    (profile : ModelProfile) (limits : SizeLimits) (cands : List TSNode) :
    subdivisionLoop source rule profile limits cands
      = ((cands.filter fun c =>
            ¬ (analyzeNodeForChunking c source rule profile).size < limits.min).map
          ChunkEvent.recurse,
         (cands.filter fun c =>
            (analyzeNodeForChunking c source rule profile).size < limits.min).map
          fun c =>
            ⟨c, sliceNode source c, (analyzeNodeForChunking c source rule profile).size⟩) := by
  unfold subdivisionLoop
  rw [subdivisionLoop_fold source rule profile limits cands [] []]
  simp

theorem filter_isEmit_map_recurse (l : List TSNode) :
    ((l.map ChunkEvent.recurse).filter ChunkEvent.isEmit) = [] := by
  induction l with
  | nil => rfl
  | cons x xs ih => simpa [List.filter_cons, ChunkEvent.isEmit] using ih

theorem subdivideStep_spec (node : TSNode) (source : String) (rule : LangRule)
    (profile : ModelProfile) (limits : SizeLimits) (cands smalls : List TSNode)
    (first : TSNode) (rest : List TSNode)
    (hl : limits = getSizeLimits profile)
    (hs : smalls = cands.filter fun c =>
      (analyzeNodeForChunking c source rule profile).size < limits.min)
    (hne : smalls = first :: rest) :
    subdivideStep node source rule profile cands
      = (cands.filter fun c =>
          ¬ (analyzeNodeForChunking c source rule profile).size < limits.min).map
            ChunkEvent.recurse
        ++ (if ((smalls.map fun c =>
              (analyzeNodeForChunking c source rule profile).size).foldl (· + ·) 0
                ≥ limits.min ∨ smalls.length ≥ 3) then
            [mkEmit
              (TSNode.mk (node.type ++ "_merged") first.startIndex
                (smalls.getLastD first).endIndex none [])
              (String.intercalate "

" (smalls.map fun c => sliceNode source c))
              (some ("small_methods_" ++ toString smalls.length))]
          else [ChunkEvent.skippedSmall smalls.length]) := by
  subst hl
  simp only [subdivideStep]
  rw [subdivisionLoop_eq source rule profile (getSizeLimits profile) cands,
    ← hs, hne]
  have hlast : ((first :: rest).map fun c =>
      (⟨c, sliceNode source c, (analyzeNodeForChunking c source rule profile).size⟩
        : SmallChunk)).getLastD
      ⟨first, sliceNode source first,
        (analyzeNodeForChunking first source rule profile).size⟩
      = ⟨(first :: rest).getLastD first,
          sliceNode source ((first :: rest).getLastD first),
          (analyzeNodeForChunking ((first :: rest).getLastD first)
            source rule profile).size⟩ :=
    getLastD_map _ (first :: rest) first
  simp only [List.map_cons] at hlast ⊢
  simp only [List.map_map, Function.comp, List.length_cons, List.length_map, hlast]
  have hproj1 : ((fun (x : SmallChunk) => x.size) ∘ fun c =>
      (⟨c, sliceNode source c, (analyzeNodeForChunking c source rule profile).size⟩
        : SmallChunk)) = fun c => (analyzeNodeForChunking c source rule profile).size := rfl
  have hproj2 : ((fun (x : SmallChunk) => x.code) ∘ fun c =>
      (⟨c, sliceNode source c, (analyzeNodeForChunking c source rule profile).size⟩
        : SmallChunk)) = fun c => sliceNode source c := rfl
  rw [hproj1, hproj2]
  by_cases h :
      List.foldl (fun x1 x2 => x1 + x2) 0
          ((analyzeNodeForChunking first source rule profile).size ::
            List.map (fun c => (analyzeNodeForChunking c source rule profile).size) rest)
        ≥ (getSizeLimits profile).min ∨ rest.length + 1 ≥ 3
  · rw [if_pos h, if_pos h]
  · rw [if_neg h, if_neg h]

/-- C5: when a node larger than max is subdivided, every subdivision
candidate smaller than min is collected rather than dropped; if the
collected candidates reach a combined size of at least min or a count
of at least 3, exactly one merged chunk is emitted, spanning from the
first collected candidate's start to the last one's end, its node type
carrying the suffix _merged and its emitted symbol carrying the suffix
small_methods_N where N is the number of merged candidates (the symbol
processChunk computes ends with that suffix); otherwise the candidates
are skipped and the step emits no chunk at all. -/
theorem C5_small_candidates_merged (node : TSNode) (source : String)
    (rule : LangRule) (profile : ModelProfile) (limits : SizeLimits)
    (cands smalls : List TSNode) (first : TSNode) (rest : List TSNode)
    (hbig : (analyzeNodeForChunking node source rule profile).needsSubdivision = true)
    (hl : limits = getSizeLimits profile)
    (hc : cands = (analyzeNodeForChunking node source rule profile).subdivisionCandidates)
    (hs : smalls = cands.filter fun c =>
      (analyzeNodeForChunking c source rule profile).size < limits.min)
    (hne : smalls = first :: rest) :
    (((smalls.map fun c =>
          (analyzeNodeForChunking c source rule profile).size).foldl (· + ·) 0
            ≥ limits.min ∨ smalls.length ≥ 3) →
      subdivideStep node source rule profile cands
        = (cands.filter fun c =>
            ¬ (analyzeNodeForChunking c source rule profile).size < limits.min).map
              ChunkEvent.recurse
          ++ [mkEmit
                (TSNode.mk (node.type ++ "_merged") first.startIndex
                  (smalls.getLastD first).endIndex none [])
                (String.intercalate "

" (smalls.map fun c => sliceNode source c))
                (some ("small_methods_" ++ toString smalls.length))] ∧
      ((subdivideStep node source rule profile cands).filter ChunkEvent.isEmit).length
          = 1 ∧
      ∃ pre,
        processChunkSymbol
            (TSNode.mk (node.type ++ "_merged") first.startIndex
              (smalls.getLastD first).endIndex none [])
            (some ("small_methods_" ++ toString smalls.length))
          = pre ++ ("small_methods_" ++ toString smalls.length)) ∧
    (¬ ((smalls.map fun c =>
          (analyzeNodeForChunking c source rule profile).size).foldl (· + ·) 0
            ≥ limits.min ∨ smalls.length ≥ 3) →
      subdivideStep node source rule profile cands
        = (cands.filter fun c =>
            ¬ (analyzeNodeForChunking c source rule profile).size < limits.min).map
              ChunkEvent.recurse
          ++ [ChunkEvent.skippedSmall smalls.length] ∧
      ((subdivideStep node source rule profile cands).filter ChunkEvent.isEmit) = []) := by
  have heq := subdivideStep_spec node source rule profile limits cands smalls
    first rest hl hs hne
  constructor
  · intro hcond
    rw [heq, if_pos hcond]
    refine ⟨rfl, ?_,
      ⟨extractSymbolName (TSNode.mk (node.type ++ "_merged") first.startIndex
          (smalls.getLastD first).endIndex none []) ++ "_part", rfl⟩⟩
    rw [List.filter_append, filter_isEmit_map_recurse]
    simp [mkEmit, ChunkEvent.isEmit]
  · intro hcond
    rw [heq, if_neg hcond]
    refine ⟨rfl, ?_⟩
    rw [List.filter_append, filter_isEmit_map_recurse]
    simp [ChunkEvent.isEmit]

set_option maxRecDepth 8000 in
/-- Witness for C5 at the concrete 300-character class node with three
thirty-character methods: one merged chunk spanning 10..120 with the
small_methods_3 suffix. -/
theorem C5_small_candidates_merged_w :
    subdivideStep classNode classSource ruleClass profChars candsClass
      = (candsClass.filter fun c =>
          ¬ (analyzeNodeForChunking c classSource ruleClass profChars).size
            < (getSizeLimits profChars).min).map ChunkEvent.recurse
        ++ [mkEmit
              (TSNode.mk (classNode.type ++ "_merged") firstSmall.startIndex
                (smallsClass.getLastD firstSmall).endIndex none [])
              (String.intercalate "\n\n"
                (smallsClass.map fun c => sliceNode classSource c))
              (some ("small_methods_" ++ toString smallsClass.length))] ∧
    ((subdivideStep classNode classSource ruleClass profChars candsClass).filter
        ChunkEvent.isEmit).length = 1 ∧
    ∃ pre,
      processChunkSymbol
          (TSNode.mk (classNode.type ++ "_merged") firstSmall.startIndex
            (smallsClass.getLastD firstSmall).endIndex none [])
          (some ("small_methods_" ++ toString smallsClass.length))
        = pre ++ ("small_methods_" ++ toString smallsClass.length) :=
  (C5_small_candidates_merged classNode classSource ruleClass profChars
      (getSizeLimits profChars) candsClass smallsClass firstSmall
      [.mk "method_definition" 50 80 (some "m2") [],
       .mk "method_definition" 90 120 (some "m3") []]
      (by decide) rfl rfl rfl rfl).1
    (Or.inr (by decide))

/-! ## C3 — indexing twice without changes re-embeds nothing -/

theorem alookup_aset_self {α : Type} (k : String) (v : α) (l : List (String × α)) :
    alookup k (aset k v l) = some v := by
  simp [aset, alookup]

theorem alookup_filter_not_key {α : Type} (k k1 : String) (h : k ≠ k1) :
    ∀ l : List (String × α),
      alookup k (l.filter fun p => ¬ p.1 = k1) = alookup k l := by
  intro l
  induction l with
  | nil => rfl
  | cons p rest ih =>
    obtain ⟨k2, v2⟩ := p
    by_cases h2 : k2 = k1
    · rw [show List.filter (fun p => decide ¬ p.1 = k1) ((k2, v2) :: rest)
          = List.filter (fun p => decide ¬ p.1 = k1) rest by simp [List.filter_cons, h2]]
      rw [ih]
      have hk2 : ¬ k = k2 := by rw [h2]; exact h
      simp [alookup, hk2]
    · rw [show List.filter (fun p => decide ¬ p.1 = k1) ((k2, v2) :: rest)
          = (k2, v2) :: List.filter (fun p => decide ¬ p.1 = k1) rest by
        simp [List.filter_cons, h2]]
      by_cases hk : k = k2
      · simp [alookup, hk]
      · rw [show alookup k ((k2, v2) :: List.filter (fun p => decide ¬ p.1 = k1) rest)
            = alookup k (List.filter (fun p => decide ¬ p.1 = k1) rest) from by
          simp [alookup, hk]]
        rw [ih]
        simp [alookup, hk]

theorem alookup_aset_ne {α : Type} (k k1 : String) (v : α) (l : List (String × α))
    (h : k ≠ k1) : alookup k (aset k1 v l) = alookup k l := by
  unfold aset
  rw [show alookup k ((k1, v) :: List.filter (fun p => ¬ p.1 = k1) l)
      = alookup k (List.filter (fun p => ¬ p.1 = k1) l) by simp [alookup, h]]
  exact alookup_filter_not_key k k1 h l

theorem alookup_filter_keys {α : Type} (k : String) (bad : List String)
    (hk : ¬ k ∈ bad) :
    ∀ l : List (String × α),
      alookup k (l.filter fun p => ¬ p.1 ∈ bad) = alookup k l := by
  intro l
  induction l with
  | nil => rfl
  | cons p rest ih =>
    obtain ⟨k2, v2⟩ := p
    by_cases h2 : k2 ∈ bad
    · have hne : ¬ k = k2 := fun hEq => hk (hEq ▸ h2)
      rw [show List.filter (fun p => decide ¬ p.1 ∈ bad) ((k2, v2) :: rest)
          = List.filter (fun p => decide ¬ p.1 ∈ bad) rest by
        simp [List.filter_cons, h2]]
      rw [ih]
      simp [alookup, hne]
    · rw [show List.filter (fun p => decide ¬ p.1 ∈ bad) ((k2, v2) :: rest)
          = (k2, v2) :: List.filter (fun p => decide ¬ p.1 ∈ bad) rest by
        simp [List.filter_cons, h2]]
      by_cases hke : k = k2
      · simp [alookup, hke]
      · rw [show alookup k ((k2, v2) :: List.filter (fun p => decide ¬ p.1 ∈ bad) rest)
            = alookup k (List.filter (fun p => decide ¬ p.1 ∈ bad) rest) from by
          simp [alookup, hke]]
        rw [ih]
        simp [alookup, hke]

theorem indexFile_merkle_other (env : IndexEnv)
    (origM : List (String × MerkleEntry)) (acc : IndexAcc) (r s rel : String)
    (h : rel ≠ r) :
    alookup rel (indexFile env origM acc r s).updatedMerkle
      = alookup rel acc.updatedMerkle := by
  cases hch : env.chunker r s with
  | none => simp [indexFile, hch]
  | some chunks =>
    simp only [indexFile, hch]
    split
    · rfl
    · exact alookup_aset_ne rel r _ acc.updatedMerkle h

theorem indexFile_merkle_self (env : IndexEnv)
    (origM : List (String × MerkleEntry)) (acc : IndexAcc) (r s : String)
    (chunks : List (String × String)) (hch : env.chunker r s = some chunks)
    (hagree : alookup r acc.updatedMerkle = alookup r origM) :
    ∃ e, alookup r (indexFile env origM acc r s).updatedMerkle = some e
      ∧ e.shaFile = env.fastHash s := by
  simp only [indexFile, hch]
  split
  · rename_i hskip
    cases hor : alookup r origM with
    | none => rw [hor] at hskip; simp at hskip
    | some prev =>
      rw [hor] at hskip
      have hsha : prev.shaFile = env.fastHash s := by
        simpa using hskip
      exact ⟨prev, by rw [hagree, hor], hsha⟩
  · exact ⟨⟨env.fastHash s, _⟩, alookup_aset_self r _ acc.updatedMerkle, rfl⟩

theorem fold_merkle_other (env : IndexEnv) (origM : List (String × MerkleEntry)) :
    ∀ (files : List (String × String)) (acc : IndexAcc) (rel : String),
      ¬ rel ∈ files.map Prod.fst →
      alookup rel
          (files.foldl (fun acc f => indexFile env origM acc f.1 f.2) acc).updatedMerkle
        = alookup rel acc.updatedMerkle := by
  intro files
  induction files with
  | nil => intro acc rel _; rfl
  | cons f rest ih =>
    intro acc rel h
    rw [List.foldl_cons]
    have h1 : rel ≠ f.1 := by
      intro hEq
      exact h (by rw [List.map_cons]; exact hEq ▸ List.mem_cons_self _ _)
    have h2 : ¬ rel ∈ rest.map Prod.fst := by
      intro hm
      exact h (by rw [List.map_cons]; exact List.mem_cons_of_mem _ hm)
    rw [ih (indexFile env origM acc f.1 f.2) rel h2]
    exact indexFile_merkle_other env origM acc f.1 f.2 rel h1

theorem fold_merkle_tracks (env : IndexEnv) (origM : List (String × MerkleEntry)) :
    ∀ (files : List (String × String)) (acc : IndexAcc) (rel source : String)
      (chunks : List (String × String)),
      (rel, source) ∈ files → (files.map Prod.fst).Nodup →
      env.chunker rel source = some chunks →
      alookup rel acc.updatedMerkle = alookup rel origM →
      ∃ e, alookup rel
          (files.foldl (fun acc f => indexFile env origM acc f.1 f.2) acc).updatedMerkle
            = some e ∧ e.shaFile = env.fastHash source := by
  intro files
  induction files with
  | nil => intro acc rel source chunks h; cases h
  | cons f rest ih =>
    intro acc rel source chunks hmem hnd hch hagree
    rw [List.foldl_cons]
    rcases List.mem_cons.mp hmem with heq | hmem2
    · obtain ⟨r, s⟩ := f
      obtain ⟨hr, hsrc⟩ := Prod.mk.injEq .. |>.mp heq
      subst hr
      subst hsrc
      have hnotin : ¬ rel ∈ rest.map Prod.fst := by
        rw [List.map_cons] at hnd
        exact (List.nodup_cons.mp hnd).1
      obtain ⟨e, he1, he2⟩ :=
        indexFile_merkle_self env origM acc rel source chunks hch hagree
      refine ⟨e, ?_, he2⟩
      rw [fold_merkle_other env origM rest _ rel hnotin]
      exact he1
    · have hne : rel ≠ f.1 := by
        intro hEq
        rw [List.map_cons] at hnd
        have hrelmem : rel ∈ rest.map Prod.fst :=
          List.mem_map.mpr ⟨(rel, source), hmem2, rfl⟩
        exact (List.nodup_cons.mp hnd).1 (hEq ▸ hrelmem)
      have hnd2 : (rest.map Prod.fst).Nodup := by
        rw [List.map_cons] at hnd
        exact (List.nodup_cons.mp hnd).2
      apply ih (indexFile env origM acc f.1 f.2) rel source chunks hmem2 hnd2 hch
      rw [indexFile_merkle_other env origM acc f.1 f.2 rel hne]
      exact hagree

theorem indexFile_skip_unchanged (env : IndexEnv)
    (origM : List (String × MerkleEntry)) (acc : IndexAcc) (r s : String)
    (h : ∀ chunks, env.chunker r s = some chunks →
      ∃ e, alookup r origM = some e ∧ e.shaFile = env.fastHash s) :
    indexFile env origM acc r s = acc := by
  cases hch : env.chunker r s with
  | none => simp [indexFile, hch]
  | some chunks =>
    obtain ⟨e, he1, he2⟩ := h chunks hch
    simp [indexFile, hch, he1, he2]

theorem fold_skip_all (env : IndexEnv) (origM : List (String × MerkleEntry)) :
    ∀ (files : List (String × String)) (acc : IndexAcc),
      (∀ rel source chunks, (rel, source) ∈ files →
        env.chunker rel source = some chunks →
        ∃ e, alookup rel origM = some e ∧ e.shaFile = env.fastHash source) →
      files.foldl (fun acc f => indexFile env origM acc f.1 f.2) acc = acc := by
  intro files
  induction files with
  | nil => intro acc _; rfl
  | cons f rest ih =>
    intro acc h
    rw [List.foldl_cons]
    rw [indexFile_skip_unchanged env origM acc f.1 f.2
      (fun chunks hch => h f.1 f.2 chunks (by
        rw [show (f.1, f.2) = f from rfl]
        exact List.mem_cons_self f rest) hch)]
    exact ih acc fun rel source chunks hm hch =>
      h rel source chunks (List.mem_cons_of_mem f hm) hch

/-- C3: running index() twice in succession with no changes to the
repository's files between the runs yields processedChunks = 0 on the
second run: the first run leaves every enumerated file's manifest entry
holding its current hash, so on the second run every file is skipped at
the merkle comparison (and in particular no chunk is re-embedded; the
per-chunk codemap retention guard never even fires).  The file list is
the deduplicated enumeration the glob produces. -/
theorem C3_second_run_processes_nothing (env : IndexEnv)
    (files : List (String × String)) (st : IndexState)
    (hnd : (files.map Prod.fst).Nodup) :
    (indexProject env files (indexProject env files st).1).2 = 0 := by
  have htrack : ∀ rel source chunks, (rel, source) ∈ files →
      env.chunker rel source = some chunks →
      ∃ e, alookup rel (indexProject env files st).1.merkle = some e
        ∧ e.shaFile = env.fastHash source := by
    intro rel source chunks hmem hch
    obtain ⟨e, he1, he2⟩ := fold_merkle_tracks env st.merkle files
      ⟨st.merkle, st.codemap, 0⟩ rel source chunks hmem hnd hch rfl
    refine ⟨e, ?_, he2⟩
    show alookup rel (indexProject env files st).1.merkle = some e
    simp only [indexProject]
    rw [alookup_filter_keys rel _ (by
      intro hbad
      have h2 := (List.mem_filter.mp hbad).2
      simp only [decide_eq_true_eq] at h2
      exact h2 (List.mem_map.mpr ⟨(rel, source), hmem, rfl⟩))]
    exact he1
  show (indexProject env files (indexProject env files st).1).2 = 0
  generalize hst1 : (indexProject env files st).1 = st1 at htrack ⊢
  simp only [indexProject]
  rw [fold_skip_all env st1.merkle files ⟨st1.merkle, st1.codemap, 0⟩
    (fun rel source chunks hm hch => htrack rel source chunks hm hch)]

/-- Witness for C3 on a one-file repository with an injective stand-in
hash, starting from the empty state. -/
theorem C3_second_run_processes_nothing_w :
    (filesOne.map Prod.fst).Nodup ∧
      (indexProject envSimple filesOne
        (indexProject envSimple filesOne stEmpty).1).2 = 0 :=
  ⟨by decide,
    C3_second_run_processes_nothing envSimple filesOne stEmpty (by decide)⟩

/-! ## C9 — blank queries answered by the project overview -/

/-- C9: a query that is empty or whitespace-only performs no search:
searchCode returns exactly getOverview, which (when the database
exists) succeeds with no error and at most limit results, every result
carrying score 1.0, ordered by file_path then symbol. -/
theorem C9_blank_query_overview (cfg : SearchConfig) (oracle : SearchOracle)
    (db : SearchDb) (query : String) (limit : Nat) (scope : ScopeOptions)
    (hq : jsTrim query = "") (hdb : db.dbExists = true) :
    searchCode cfg oracle db query limit scope = getOverview db limit ∧
      (getOverview db limit).success = true ∧
      (getOverview db limit).error = none ∧
      (getOverview db limit).results.length ≤ limit ∧
      (∀ r ∈ (getOverview db limit).results, r.meta.score = 1) ∧
      (getOverview db limit).results.Pairwise overviewResRel := by
  have hsc : searchCode cfg oracle db query limit scope = getOverview db limit := by
    unfold searchCode
    rw [if_pos hq]
  have hne : ¬ db.dbExists = false := by simp [hdb]
  have hov : getOverview db limit =
      { success := true
        error := none
        results := ((db.rows.insertionSort overviewRowRel).take limit).map fun c =>
          { type := "code", lang := c.lang, path := c.file_path, sha := c.sha
            data := none
            meta := { id := some c.id, symbol := c.symbol, score := 1 } } } := by
    unfold getOverview
    rw [if_neg hne]
  refine ⟨hsc, ?_, ?_, ?_, ?_, ?_⟩
  · rw [hov]
  · rw [hov]
  · rw [hov]
    simp only [List.length_map, List.length_take]
    exact min_le_left _ _
  · intro r hr
    rw [hov] at hr
    obtain ⟨c, _, rfl⟩ := List.mem_map.mp hr
    rfl
  · rw [hov]
    have hsorted : (db.rows.insertionSort overviewRowRel).Pairwise overviewRowRel :=
      List.sorted_insertionSort overviewRowRel db.rows
    have htake : ((db.rows.insertionSort overviewRowRel).take limit).Pairwise
        overviewRowRel :=
      hsorted.sublist (List.take_sublist limit _)
    exact List.pairwise_map.mpr (htake.imp fun hab => hab)

/-- Witness for C9: a whitespace-only query against the two-row
database with limit 5. -/
theorem C9_blank_query_overview_w :
    jsTrim "   " = "" ∧ dbTwoRows.dbExists = true ∧
      (searchCode cfgOpenai trivialOracle dbTwoRows "   " 5 scopeDefault
          = getOverview dbTwoRows 5 ∧
        (getOverview dbTwoRows 5).success = true ∧
        (getOverview dbTwoRows 5).error = none ∧
        (getOverview dbTwoRows 5).results.length ≤ 5 ∧
        (∀ r ∈ (getOverview dbTwoRows 5).results, r.meta.score = 1) ∧
        (getOverview dbTwoRows 5).results.Pairwise overviewResRel) :=
  ⟨by decide, rfl,
    C9_blank_query_overview cfgOpenai trivialOracle dbTwoRows "   " 5 scopeDefault
      (by decide) rfl⟩

/-! ## C4 — the reranker gate and candidate cap -/

theorem setCandidateRanks_map_rank (sorted : List (Info × ℚ)) :
    (setCandidateRanks sorted).map (fun i => i.rerankerRank)
      = (List.range sorted.length).map fun n => some (n + 1) := by
  unfold setCandidateRanks
  rw [List.map_map]
  rw [show ((fun i => i.rerankerRank) ∘ fun p : Nat × (Info × ℚ) =>
      ({ p.2.1 with rerankerScore := some p.2.2, rerankerRank := some (p.1 + 1) } : Info))
    = (fun n => some (n + 1)) ∘ Prod.fst from rfl]
  rw [← List.map_map, List.enum_map_fst]

theorem setCandidateRanks_map_score (sorted : List (Info × ℚ)) :
    (setCandidateRanks sorted).map (fun i => i.rerankerScore)
      = sorted.map fun p => some p.2 := by
  unfold setCandidateRanks
  rw [List.map_map]
  rw [show ((fun i => i.rerankerScore) ∘ fun p : Nat × (Info × ℚ) =>
      ({ p.2.1 with rerankerScore := some p.2.2, rerankerRank := some (p.1 + 1) } : Info))
    = (fun q : Info × ℚ => some q.2) ∘ Prod.snd from rfl]
  rw [← List.map_map, List.enum_map_snd]

theorem rerankCrossEncoder_some (maxOpt : Nat) (f : Info → ℚ)
    (cands : List Info) (hlen : 1 < cands.length)
    (hmax : 1 < min maxOpt cands.length) :
    rerankCrossEncoder maxOpt (some f) cands
      = setCandidateRanks (((cands.take (min maxOpt cands.length)).map
          fun c => (c, f c)).insertionSort rerankPairRel)
        ++ cands.drop (min maxOpt cands.length) := by
  have h1 : ¬ cands.length ≤ 1 := Nat.not_le.mpr hlen
  have h2 : ¬ min maxOpt cands.length ≤ 1 := Nat.not_le.mpr hmax
  simp only [rerankCrossEncoder, h1, if_false, h2, ite_false]

/-- C4_counterexample: the reranker gate in searchCode tests only for
the transformers mode and caps at RERANKER_MAX_CANDIDATES (default 50),
not min(200, count): with the api mode and two candidates (and a
scoring model available) no candidate receives a rerankerRank, and with
the transformers mode and 51 candidates the last candidate keeps
rerankerRank = none although min(200, 51) = 51 would rerank all of
them. -/
theorem C4_counterexample :
    (1 < rerankInfos2.length ∧
      (rerankPhase cfgOpenai scoredOracle "api" rerankInfos2).map
        (fun i => i.rerankerRank) = [none, none]) ∧
    (min 200 rerankInfos51.length = 51 ∧
      ((rerankPhase cfgOpenai scoredOracle "transformers" rerankInfos51).map
        (fun i => i.rerankerRank)).getLast? = some none) := by
  refine ⟨⟨by decide, by decide⟩, by decide, ?_⟩
  decide

/-- C4: amended — the reranker runs only when the requested mode is
exactly transformers and more than one candidate remains, over the top
min(RERANKER_MAX_CANDIDATES, count) candidates (50 by default, not
200); ranked candidates get rerankerScore and rerankerRank = position
+ 1 after the descending re-sort, the untouched tail is appended, and
an unavailable scoring model (rerank failure) keeps the prior ordering
— as does any non-transformers mode, including api. -/
theorem C4_amended_rerank_gate (cfg : SearchConfig) (oracle : SearchOracle)
    (mode : String) (cands : List Info) (f : Info → ℚ)
    (hf : oracle.rerankScoreOf = some f)
    (hlen : 1 < cands.length) (hM : 1 < cfg.rerankerMaxCandidates) :
    (¬ mode = "transformers" → rerankPhase cfg oracle mode cands = cands) ∧
    (∀ or2 : SearchOracle, or2.rerankScoreOf = none →
      rerankPhase cfg or2 mode cands = cands) ∧
    (mode = "transformers" →
      ∃ sorted : List (Info × ℚ),
        sorted.Perm
          ((cands.take (min cfg.rerankerMaxCandidates cands.length)).map
            fun c => (c, f c)) ∧
        sorted.Sorted rerankPairRel ∧
        rerankPhase cfg oracle mode cands
          = setCandidateRanks sorted
            ++ cands.drop (min cfg.rerankerMaxCandidates cands.length) ∧
        (setCandidateRanks sorted).map (fun i => i.rerankerRank)
          = (List.range sorted.length).map (fun n => some (n + 1)) ∧
        (setCandidateRanks sorted).map (fun i => i.rerankerScore)
          = sorted.map fun p => some p.2) := by
  refine ⟨?_, ?_, ?_⟩
  · intro hmode
    unfold rerankPhase
    rw [if_neg]
    rintro ⟨_, h⟩
    exact hmode h
  · intro or2 hnone
    unfold rerankPhase
    by_cases hg : 1 < cands.length ∧ mode = "transformers"
    · rw [if_pos hg]
      have h1 : ¬ cands.length ≤ 1 := Nat.not_le.mpr hg.1
      simp only [rerankCrossEncoder, h1, if_false, hnone]
    · rw [if_neg hg]
  · intro hmode
    have hmin : min (min cfg.rerankerMaxCandidates cands.length) cands.length
        = min cfg.rerankerMaxCandidates cands.length := by omega
    have h2 : 1 < min (min cfg.rerankerMaxCandidates cands.length) cands.length := by
      omega
    refine ⟨((cands.take (min cfg.rerankerMaxCandidates cands.length)).map
        fun c => (c, f c)).insertionSort rerankPairRel,
      List.perm_insertionSort rerankPairRel _,
      List.sorted_insertionSort rerankPairRel _, ?_,
      setCandidateRanks_map_rank _, setCandidateRanks_map_score _⟩
    have hstep : rerankPhase cfg oracle mode cands
        = rerankCrossEncoder (min cfg.rerankerMaxCandidates cands.length)
          (some f) cands := by
      unfold rerankPhase
      rw [if_pos ⟨hlen, hmode⟩, hf]
    rw [hstep, rerankCrossEncoder_some _ f cands hlen h2, hmin]

/-- Witness for C4's amended theorem at the transformers mode over two
candidates with the score-projection model. -/
theorem C4_amended_rerank_gate_w :
    scoredOracle.rerankScoreOf = some (fun i => i.score) ∧
    1 < rerankInfos2.length ∧ 1 < cfgOpenai.rerankerMaxCandidates ∧
    ((¬ "transformers" = "transformers" →
        rerankPhase cfgOpenai scoredOracle "transformers" rerankInfos2
          = rerankInfos2) ∧
      (∀ or2 : SearchOracle, or2.rerankScoreOf = none →
        rerankPhase cfgOpenai or2 "transformers" rerankInfos2 = rerankInfos2) ∧
      ("transformers" = "transformers" →
        ∃ sorted : List (Info × ℚ),
          sorted.Perm
            ((rerankInfos2.take
                (min cfgOpenai.rerankerMaxCandidates rerankInfos2.length)).map
              fun c => (c, c.score)) ∧
          sorted.Sorted rerankPairRel ∧
          rerankPhase cfgOpenai scoredOracle "transformers" rerankInfos2
            = setCandidateRanks sorted
              ++ rerankInfos2.drop
                (min cfgOpenai.rerankerMaxCandidates rerankInfos2.length) ∧
          (setCandidateRanks sorted).map (fun i => i.rerankerRank)
            = (List.range sorted.length).map (fun n => some (n + 1)) ∧
          (setCandidateRanks sorted).map (fun i => i.rerankerScore)
            = sorted.map fun p => some p.2)) :=
  ⟨rfl, by decide, by decide,
    C4_amended_rerank_gate cfgOpenai scoredOracle "transformers" rerankInfos2
      (fun i => i.score) rfl (by decide) (by decide)⟩

/-! ## C1 — provider/dimension visibility -/

theorem mem_intentionResultsOf_searchType (db : SearchDb)
    (im : Option IntentionMatch) (res : ResultItem)
    (h : res ∈ intentionResultsOf db im) :
    res.meta.searchType = some "intention" := by
  unfold intentionResultsOf at h
  split at h
  · split at h
    · rw [List.mem_singleton.mp h]
    · cases h
  · cases h

theorem mem_rerankPhase (cfg : SearchConfig) (oracle : SearchOracle)
    (mode : String) (vr : List Info) (i : Info)
    (h : i ∈ rerankPhase cfg oracle mode vr) :
    ∃ j ∈ vr, i.row = j.row := by
  unfold rerankPhase at h
  split at h
  · unfold rerankCrossEncoder at h
    split at h
    · exact ⟨i, h, rfl⟩
    · split at h
      · exact ⟨i, h, rfl⟩
      · dsimp only [] at h
        split at h
        · exact ⟨i, h, rfl⟩
        · rcases List.mem_append.mp h with h1 | h2
          · unfold setCandidateRanks at h1
            obtain ⟨p, hp, rfl⟩ := List.mem_map.mp h1
            have hp2 := snd_mem_of_mem_enum hp
            have hp3 := mem_insertionSort hp2
            obtain ⟨c, hc, hcp⟩ := List.mem_map.mp hp3
            refine ⟨c, List.mem_of_mem_take hc, ?_⟩
            rw [← hcp]
          · exact ⟨i, List.mem_of_mem_drop h2, rfl⟩
  · exact ⟨i, h, rfl⟩

theorem mem_bmStageOf (oracle : SearchOracle) (query : String)
    (scope : ScopeOptions) (results vectorPool : List Info)
    (scopedChunks : List ChunkRow) (intentionChunkIds : List String)
    (selectionBudget : Nat) (x : Info)
    (h : x ∈ (bmStageOf oracle query scope results vectorPool scopedChunks
      intentionChunkIds selectionBudget).1) :
    ∃ j ∈ results, x.row = j.row := by
  unfold bmStageOf at h
  split at h
  · dsimp only [] at h
    split at h
    · cases h
    · split at h
      · cases h
      · obtain ⟨e, he, heq⟩ := List.mem_filterMap.mp h
        obtain ⟨i0, hi0, rfl⟩ := Option.map_eq_some'.mp heq
        obtain ⟨j, hj, hpair⟩ := List.mem_map.mp (alookup_eq_some_mem hi0)
        obtain ⟨h1, h2⟩ := Prod.mk.injEq .. |>.mp hpair
        exact ⟨j, hj, by rw [← h2]⟩
  · cases h

theorem mem_vectorStage (cfg : SearchConfig) (oracle : SearchOracle)
    (query : String) (scope : ScopeOptions)
    (results filteredResults : List Info) (scopedChunks : List ChunkRow)
    (intentionChunkIds : List String) (remainingSlots : Nat) (i : Info)
    (h : i ∈ (vectorStage cfg oracle query scope results filteredResults
      scopedChunks intentionChunkIds remainingSlots).1) :
    ∃ j, (j ∈ results ∨ j ∈ filteredResults) ∧ i.row = j.row := by
  unfold vectorStage at h
  split at h
  · cases h
  · dsimp only [] at h
    obtain ⟨j1, hj1, hrow1⟩ := mem_rerankPhase _ _ _ _ i h
    have hj2 := List.mem_of_mem_take hj1
    split at hj2
    · split at hj2
      · exact ⟨j1, Or.inr (List.mem_of_mem_take (mem_insertionSort hj2)), hrow1⟩
      · exact ⟨j1, Or.inr (List.mem_of_mem_take hj2), hrow1⟩
    · split at hj2
      · obtain ⟨j, hj, hrow2⟩ :=
          mem_bmStageOf _ _ _ _ _ _ _ _ j1 (mem_insertionSort hj2)
        exact ⟨j, Or.inl hj, hrow1.trans hrow2⟩
      · obtain ⟨j, hj, hrow2⟩ := mem_bmStageOf _ _ _ _ _ _ _ _ j1 hj2
        exact ⟨j, Or.inl hj, hrow1.trans hrow2⟩

theorem mem_composeResults (sir : List ResultItem) (vr : List Info)
    (t : String) (res : ResultItem)
    (h : res ∈ (composeResults sir vr t).results) :
    res ∈ sir ∨ ∃ r ∈ vr, res =
      { type := "code", lang := r.row.lang, path := r.row.file_path
        sha := r.row.sha, data := none
        meta := { id := some r.row.id, symbol := r.row.symbol
                  score := min 1 r.score
                  searchType := some t
                  rerankerScore := r.rerankerScore
                  rerankerRank := r.rerankerRank } } := by
  unfold composeResults at h
  dsimp only [] at h
  split at h
  · exact absurd h (List.not_mem_nil res)
  · rcases List.mem_append.mp h with h1 | h2
    · exact Or.inl h1
    · obtain ⟨r, hr, heq⟩ := List.mem_map.mp h2
      exact Or.inr ⟨r, hr, heq.symm⟩

/-- C1: amended — for a non-blank query, every returned result other
than an intention-cache result (meta.searchType = intention) originates
from a stored chunk row whose (embedding_provider,
embedding_dimensions) equals the configured (P, D): the vector, BM25
and reranker phases all draw their candidates from the
provider/dimension-filtered read.  Intention-cache results bypass this
filter (see the counterexample). -/
theorem C1_amended_provider_filter (cfg : SearchConfig) (oracle : SearchOracle)
    (db : SearchDb) (query : String) (limit : Nat) (scope : ScopeOptions)
    (res : ResultItem) (hq : ¬ jsTrim query = "")
    (hres : res ∈ (searchCode cfg oracle db query limit scope).results)
    (hty : ¬ res.meta.searchType = some "intention") :
    ∃ row ∈ db.rows, row.sha = res.sha ∧ some row.id = res.meta.id ∧
      row.embedding_provider = cfg.provider ∧
      row.embedding_dimensions = cfg.dimensions := by
  unfold searchCode at hres
  rw [if_neg hq] at hres
  dsimp only [] at hres
  split at hres
  · exact absurd hres (List.not_mem_nil res)
  · split at hres
    · exact absurd hres (List.not_mem_nil res)
    · rcases mem_composeResults _ _ _ res hres with hL | ⟨r, hr, rfl⟩
      · split at hL
        · exact absurd
            (mem_intentionResultsOf_searchType db _ res
              (List.mem_of_mem_filter hL)) hty
        · exact absurd (mem_intentionResultsOf_searchType db _ res hL) hty
      · obtain ⟨j, hj, hrowj⟩ := mem_vectorStage _ _ _ _ _ _ _ _ _ r hr
        have hjr : j ∈
            (if scope.symbol_boost = true then
              ((applyScope oracle.globMatch
                  (db.rows.filter fun c =>
                    c.embedding_provider = cfg.provider ∧
                      c.embedding_dimensions = cfg.dimensions) scope).map
                (similarityInfo oracle query
                  (if (applyScope oracle.globMatch
                      (db.rows.filter fun c =>
                        c.embedding_provider = cfg.provider ∧
                          c.embedding_dimensions = cfg.dimensions)
                      scope).isEmpty = true then none
                    else some (oracle.embedQuery query)))).map
                (applySymbolBoostEntry oracle query)
            else
              (applyScope oracle.globMatch
                (db.rows.filter fun c =>
                  c.embedding_provider = cfg.provider ∧
                    c.embedding_dimensions = cfg.dimensions) scope).map
                (similarityInfo oracle query
                  (if (applyScope oracle.globMatch
                      (db.rows.filter fun c =>
                        c.embedding_provider = cfg.provider ∧
                          c.embedding_dimensions = cfg.dimensions)
                      scope).isEmpty = true then none
                    else some (oracle.embedQuery query)))) := by
          rcases hj with hjr | hjf
          · exact hjr
          · exact mem_insertionSort (List.mem_of_mem_filter hjf)
        clear hj hres
        split at hjr
        · obtain ⟨j0, hj0, rfl⟩ := List.mem_map.mp hjr
          obtain ⟨c, hc, rfl⟩ := List.mem_map.mp hj0
          unfold applyScope at hc
          have hc2 := List.mem_of_mem_filter hc
          obtain ⟨hrows, hdec⟩ := List.mem_filter.mp hc2
          obtain ⟨hprov, hdim⟩ := of_decide_eq_true hdec
          refine ⟨c, hrows, ?_, ?_, hprov, hdim⟩
          · show c.sha = r.row.sha
            rw [hrowj]
            rfl
          · show some c.id = some r.row.id
            rw [hrowj]
            rfl
        · obtain ⟨c, hc, rfl⟩ := List.mem_map.mp hjr
          unfold applyScope at hc
          have hc2 := List.mem_of_mem_filter hc
          obtain ⟨hrows, hdec⟩ := List.mem_filter.mp hc2
          obtain ⟨hprov, hdim⟩ := of_decide_eq_true hdec
          refine ⟨c, hrows, ?_, ?_, hprov, hdim⟩
          · show c.sha = r.row.sha
            rw [hrowj]
            rfl
          · show some c.id = some r.row.id
            rw [hrowj]
            rfl

/-- C1_counterexample: the intention-cache phase of searchCode resolves
a cached target_sha against all of code_chunks with no provider or
dimension filter: a search configured (openai, 2) on a database whose
cached intention points at a chunk stored under (cohere, 3) returns
that chunk first, although every row with its sha fails the configured
(provider, dimensions) pair. -/
theorem C1_counterexample :
    (searchCode cfgOpenai trivialOracle dbMixed "payments" 10
        scopeDefault).results.map (fun r => r.sha) = ["bbb", "aaa"] ∧
    (searchCode cfgOpenai trivialOracle dbMixed "payments" 10
        scopeDefault).results.map (fun r => r.meta.searchType)
      = [some "intention", some "vector"] ∧
    ∀ row ∈ dbMixed.rows, row.sha = "bbb" →
      ¬ (row.embedding_provider = cfgOpenai.provider ∧
        row.embedding_dimensions = cfgOpenai.dimensions) :=
  ⟨by decide, by decide, by decide⟩

/-- Witness for C1's amended theorem: the vector-phase result of the
mixed-provider search does come from a matching openai row. -/
theorem C1_amended_provider_filter_w :
    (¬ jsTrim "payments" = "") ∧
    ∃ row ∈ dbMixed.rows,
      row.sha = ((searchCode cfgOpenai trivialOracle dbMixed "payments" 10
          scopeDefault).results.getD 1 dummyItem).sha ∧
      some row.id = ((searchCode cfgOpenai trivialOracle dbMixed "payments" 10
          scopeDefault).results.getD 1 dummyItem).meta.id ∧
      row.embedding_provider = cfgOpenai.provider ∧
      row.embedding_dimensions = cfgOpenai.dimensions :=
  ⟨by decide,
    C1_amended_provider_filter cfgOpenai trivialOracle dbMixed "payments" 10
      scopeDefault _ (by decide)
      (by
        rw [List.getD_eq_get _ dummyItem (by decide)]
        exact List.get_mem _ _ _)
      (by decide)⟩
